import Mathlib

/-!
# Verification of the proxtagger conditional-tagging core

A shallow embedding, in Lean 4, of the conditional-tagging core of the
proxtagger repository:

* `src/tag_utils.py`           — tag-string parsing and formatting
* `src/modules/conditional_tags/engine.py`  — the rule evaluation engine
* `src/modules/conditional_tags/storage.py` — rule store and execution history
* `src/modules/conditional_tags/models.py`  — the data model and validation

Python strings are modelled as `List Char` (`Str`), Python dynamic values as
the closed inductive `Value` (dictionaries as association lists keyed by
`Str`), exceptions as an explicit `PyErr` threaded through in `Except` /
`Option PyErr` results, and the external Proxmox tag-mutation collaborator
(`proxmox_api.update_vm_tags`, wrapped with retries outside the core) as an
environment function `Env` together with an explicit log of attempted calls.
Wall-clock quantities (`time.time()`, `datetime.now()`) are carried as
opaque `Nat` fields that the model does not compute.
-/

namespace Proxtagger

/-- Python strings are modelled as lists of characters. -/
abbrev Str := List Char

/-- ASCII whitespace, the characters removed by Python's `str.strip()`
(restricted to the ASCII range, which is all the repository ever feeds it). -/
def pyIsSpace (c : Char) : Bool :=
  c = ' ' || c = '\t' || c = '\n' || c = '\r' || c = '\x0b' || c = '\x0c'

/-- Python `str.strip()`: drop leading and trailing whitespace. -/
def pyStrip (s : Str) : Str :=
  ((s.dropWhile pyIsSpace).reverse.dropWhile pyIsSpace).reverse

/-- Python `str.lower()` (ASCII case folding). -/
def pyLower (s : Str) : Str := s.map Char.toLower

/-- Python `s.split(sep)` for a single-character separator: never returns an
empty list, and `"".split(sep) == [""]`. -/
def splitOnChar (sep : Char) : Str → List Str
  | [] => [[]]
  | c :: rest =>
    match splitOnChar sep rest with
    | [] => if c = sep then [[], []] else [[c]]
    | h :: t => if c = sep then [] :: h :: t else (c :: h) :: t

/-- `";".join l`. -/
def joinSemicolons : List Str → Str
  | [] => []
  | [x] => x
  | x :: y :: t => x ++ ';' :: joinSemicolons (y :: t)

/-- `tag_utils.parse_tags` on an actual string: split on `";"`, strip each
segment, drop segments that strip to empty.  (The Python body is the list
comprehension `[tag.strip() for tag in tags_string.split(";") if tag.strip()]`;
the `if not tags_string` early return yields `[]`, which coincides with the
comprehension on the empty string.) -/
def parseTagsStr (s : Str) : List Str :=
  ((splitOnChar ';' s).map pyStrip).filter (fun t => t ≠ [])

/-- `tag_utils.format_tags`: strip every tag, drop falsy/whitespace-only
tags, join with `";"`.  (The `if not tags_list` early return coincides with
joining the empty list.) -/
def formatTags (l : List Str) : Str :=
  joinSemicolons ((l.filter (fun t => t ≠ [] ∧ pyStrip t ≠ [])).map pyStrip)

/-! ## Python dynamic values -/

/-- A closed model of the Python values the core manipulates: `None`,
booleans, integers, strings, lists and string-keyed dictionaries
(association lists in insertion order). -/
inductive Value where
  | none
  | bool (b : Bool)
  | int (n : Int)
  | str (s : Str)
  | list (vs : List Value)
  | dict (d : List (Str × Value))

/-- Python `==` on the modelled values (structural equality; sufficient for
the scalar keys the engine actually compares). -/
def Value.beq : Value → Value → Bool
  | .none, .none => true
  | .bool a, .bool b => a == b
  | .int a, .int b => a == b
  | .str a, .str b => a == b
  | .list as, .list bs => go as bs
  | .dict as, .dict bs => goD as bs
  | _, _ => false
where
  go : List Value → List Value → Bool
    | [], [] => true
    | a :: as, b :: bs => a.beq b && go as bs
    | _, _ => false
  goD : List (Str × Value) → List (Str × Value) → Bool
    | [], [] => true
    | (k, v) :: as, (k', v') :: bs => k == k' && v.beq v' && goD as bs
    | _, _ => false

mutual

def Value.beq_refl : (v : Value) → Value.beq v v = true
  | .none => rfl
  | .bool b => by simp [Value.beq]
  | .int n => by simp [Value.beq]
  | .str s => by simp [Value.beq]
  | .list vs => by simp [Value.beq, Value.beq_refl_go vs]
  | .dict d => by simp [Value.beq, Value.beq_refl_goD d]

def Value.beq_refl_go : (l : List Value) → Value.beq.go l l = true
  | [] => rfl
  | v :: vs => by simp [Value.beq.go, Value.beq_refl v, Value.beq_refl_go vs]

def Value.beq_refl_goD : (d : List (Str × Value)) → Value.beq.goD d d = true
  | [] => rfl
  | (k, v) :: rest => by simp [Value.beq.goD, Value.beq_refl v, Value.beq_refl_goD rest]

end

mutual

def Value.eq_of_beq : (a b : Value) → Value.beq a b = true → a = b
  | .none, .none, _ => rfl
  | .bool a, .bool b, h => by simp [Value.beq] at h; simp [h]
  | .int a, .int b, h => by simp [Value.beq] at h; simp [h]
  | .str a, .str b, h => by simp [Value.beq] at h; simp [h]
  | .list as, .list bs, h => by
      simp only [Value.beq] at h
      simp [Value.eq_of_beq_go as bs h]
  | .dict as, .dict bs, h => by
      simp only [Value.beq] at h
      simp [Value.eq_of_beq_goD as bs h]
  | .none, .bool _, h => by simp [Value.beq] at h
  | .none, .int _, h => by simp [Value.beq] at h
  | .none, .str _, h => by simp [Value.beq] at h
  | .none, .list _, h => by simp [Value.beq] at h
  | .none, .dict _, h => by simp [Value.beq] at h
  | .bool _, .none, h => by simp [Value.beq] at h
  | .bool _, .int _, h => by simp [Value.beq] at h
  | .bool _, .str _, h => by simp [Value.beq] at h
  | .bool _, .list _, h => by simp [Value.beq] at h
  | .bool _, .dict _, h => by simp [Value.beq] at h
  | .int _, .none, h => by simp [Value.beq] at h
  | .int _, .bool _, h => by simp [Value.beq] at h
  | .int _, .str _, h => by simp [Value.beq] at h
  | .int _, .list _, h => by simp [Value.beq] at h
  | .int _, .dict _, h => by simp [Value.beq] at h
  | .str _, .none, h => by simp [Value.beq] at h
  | .str _, .bool _, h => by simp [Value.beq] at h
  | .str _, .int _, h => by simp [Value.beq] at h
  | .str _, .list _, h => by simp [Value.beq] at h
  | .str _, .dict _, h => by simp [Value.beq] at h
  | .list _, .none, h => by simp [Value.beq] at h
  | .list _, .bool _, h => by simp [Value.beq] at h
  | .list _, .int _, h => by simp [Value.beq] at h
  | .list _, .str _, h => by simp [Value.beq] at h
  | .list _, .dict _, h => by simp [Value.beq] at h
  | .dict _, .none, h => by simp [Value.beq] at h
  | .dict _, .bool _, h => by simp [Value.beq] at h
  | .dict _, .int _, h => by simp [Value.beq] at h
  | .dict _, .str _, h => by simp [Value.beq] at h
  | .dict _, .list _, h => by simp [Value.beq] at h

def Value.eq_of_beq_go : (a b : List Value) → Value.beq.go a b = true → a = b
  | [], [], _ => rfl
  | x :: xs, y :: ys, h => by
      simp only [Value.beq.go, Bool.and_eq_true] at h
      simp [Value.eq_of_beq x y h.1, Value.eq_of_beq_go xs ys h.2]
  | [], _ :: _, h => by simp [Value.beq.go] at h
  | _ :: _, [], h => by simp [Value.beq.go] at h

def Value.eq_of_beq_goD : (a b : List (Str × Value)) → Value.beq.goD a b = true → a = b
  | [], [], _ => rfl
  | (k, v) :: xs, (k', v') :: ys, h => by
      simp only [Value.beq.goD, Bool.and_eq_true] at h
      have h3 : k = k' := by have := h.1.1; simpa using this
      simp [Value.eq_of_beq v v' h.1.2, Value.eq_of_beq_goD xs ys h.2, h3]
  | [], _ :: _, h => by simp [Value.beq.goD] at h
  | _ :: _, [], h => by simp [Value.beq.goD] at h

end

instance : DecidableEq Value := fun a b =>
  decidable_of_iff (Value.beq a b = true) ⟨Value.eq_of_beq a b, fun h => h ▸ Value.beq_refl a⟩

/-- A Python dictionary with string keys, as the engine receives VM records. -/
abbrev PyDict := List (Str × Value)

/-- Dictionary lookup (`d[k]` / `k in d`): first binding wins. -/
def dictGet (d : PyDict) (k : Str) : Option Value :=
  match d with
  | [] => Option.none
  | (k', v) :: rest => if k' = k then some v else dictGet rest k

/-- `d.get(k, default)`. -/
def dictGetD (d : PyDict) (k : Str) (dflt : Value) : Value :=
  (dictGet d k).getD dflt

/-- `d[k] = v`: overwrite in place if present, append otherwise
(Python dictionaries preserve insertion order). -/
def dictSet (d : PyDict) (k : Str) (v : Value) : PyDict :=
  match d with
  | [] => [(k, v)]
  | (k', v') :: rest => if k' = k then (k, v) :: rest else (k', v') :: dictSet rest k v

/-- Shorthand for writing `Str` literals. -/
def litS (s : String) : Str := s.toList

/-- Decimal rendering of an integer, as Python's `str`. -/
def intStr (n : Int) : Str :=
  if n < 0 then '-' :: Nat.toDigits 10 (-n).toNat else Nat.toDigits 10 n.toNat

/-- Python `str(v)`.  `str` of a container uses `repr` on its elements
(strings quoted). -/
def pyStr : Value → Str
  | .none => litS "None"
  | .bool b => if b then litS "True" else litS "False"
  | .int n => intStr n
  | .str s => s
  | .list vs => '[' :: go vs ++ [']']
  | .dict d => '\x7b' :: goD d ++ ['\x7d']
where
  go : List Value → Str
    | [] => []
    | [.str s] => '\'' :: s ++ ['\'']
    | [v] => pyStr v
    | .str s :: rest => '\'' :: s ++ '\'' :: ',' :: ' ' :: go rest
    | v :: rest => pyStr v ++ ',' :: ' ' :: go rest
  goD : List (Str × Value) → Str
    | [] => []
    | [(k, .str s)] => '\'' :: k ++ '\'' :: ':' :: ' ' :: '\'' :: s ++ ['\'']
    | [(k, v)] => '\'' :: k ++ '\'' :: ':' :: ' ' :: pyStr v
    | (k, .str s) :: rest => '\'' :: k ++ '\'' :: ':' :: ' ' :: '\'' :: s ++ '\'' :: ',' :: ' ' :: goD rest
    | (k, v) :: rest => '\'' :: k ++ '\'' :: ':' :: ' ' :: pyStr v ++ ',' :: ' ' :: goD rest

/-- Numeric value of a digit string. -/
def digitsToNat (ds : List Char) : Nat :=
  ds.foldl (fun a c => a * 10 + (c.toNat - '0'.toNat)) 0

/-- The mantissa/exponent part of Python's `float(string)` grammar:
`digits [. digits] | . digits`, then an optional exponent.  Returns `none`
exactly when `float()` would raise `ValueError`.  (The special literals
`inf`/`infinity`/`nan` are outside the model.)  Rationals stand in for IEEE
floats; every claim about these operators concerns coercion failure, not
rounding. -/
def parseFloatStr (s0 : Str) : Option Rat :=
  let s := pyStrip s0
  let (neg, s1) : Bool × Str :=
    match s with
    | '-' :: t => (true, t)
    | '+' :: t => (false, t)
    | t => (false, t)
  let intPart := s1.takeWhile Char.isDigit
  let rest1 := s1.dropWhile Char.isDigit
  let (fracPart, rest2) : Str × Str :=
    match rest1 with
    | '.' :: t => (t.takeWhile Char.isDigit, t.dropWhile Char.isDigit)
    | t => ([], t)
  if intPart = [] ∧ fracPart = [] then Option.none
  else
    let mantissa : Rat :=
      (digitsToNat intPart : Rat) + (digitsToNat fracPart : Rat) / ((10 : Rat) ^ fracPart.length)
    let m := if neg then -mantissa else mantissa
    match rest2 with
    | [] => some m
    | 'e' :: t | 'E' :: t =>
      let (eneg, t1) : Bool × Str :=
        match t with
        | '-' :: u => (true, u)
        | '+' :: u => (false, u)
        | u => (false, u)
      let eds := t1.takeWhile Char.isDigit
      let rest3 := t1.dropWhile Char.isDigit
      if eds = [] ∨ rest3 ≠ [] then Option.none
      else if eneg then some (m / (10 : Rat) ^ digitsToNat eds)
      else some (m * (10 : Rat) ^ digitsToNat eds)
    | _ => Option.none

/-- Python `float(v)`: numeric coercion.  `none` models the `ValueError` /
`TypeError` that `float()` raises on non-coercible values. -/
def pyFloat : Value → Option Rat
  | .int n => some n
  | .bool b => some (if b then 1 else 0)
  | .str s => parseFloatStr s
  | _ => Option.none

/-! ## A small regular-expression engine

`_op_regex` calls `re.search(pattern, str(field_value))`.  The model
implements the core constructs (literal characters, `.`, postfix `*`); a
malformed pattern (a repeat with nothing to repeat) is the model of
`re.error`.  No claim depends on the matching semantics itself, only on the
error-control flow around it. -/

inductive RegexTok where
  | lit (c : Char)
  | dot
  deriving DecidableEq

/-- Compile a pattern; `Except.error` models `re.error`. -/
def regexParse : Str → Except Unit (List (RegexTok × Bool))
  | [] => .ok []
  | '*' :: _ => .error ()
  | _ :: '*' :: '*' :: _ => .error ()
  | c :: '*' :: rest =>
    (regexParse rest).map (fun ts => ((if c = '.' then RegexTok.dot else RegexTok.lit c), true) :: ts)
  | c :: rest =>
    (regexParse rest).map (fun ts => ((if c = '.' then RegexTok.dot else RegexTok.lit c), false) :: ts)

def tokMatch : RegexTok → Char → Bool
  | .lit c, c' => c = c'
  | .dot, c' => c' ≠ '\n'

mutual

def reMatchHere : List (RegexTok × Bool) → Str → Bool
  | [], _ => true
  | (t, true) :: ps, s => reMatchStar t ps s
  | (_, false) :: _, [] => false
  | (t, false) :: ps, c :: s => tokMatch t c && reMatchHere ps s
termination_by ps s => (s.length, ps.length, 0)

def reMatchStar (t : RegexTok) (ps : List (RegexTok × Bool)) : Str → Bool
  | [] => reMatchHere ps []
  | c :: s' => reMatchHere ps (c :: s') || (tokMatch t c && reMatchStar t ps s')
termination_by s => (s.length, ps.length, 1)

end

/-- `re.search`: try a match at every start position. -/
def reSearch (ps : List (RegexTok × Bool)) (s : Str) : Bool :=
  s.tails.any (reMatchHere ps)

/-! ## Exceptions and the external collaborator -/

/-- The Python exceptions the modelled code can raise or observe. -/
inductive PyErr where
  | keyError (k : Str)
  | typeError (m : Str)
  | valueError (m : Str)
  | exn (m : Str)
  deriving DecidableEq

/-- `str(e)` on an exception (`str(KeyError(k))` is the quoted key). -/
def PyErr.msg : PyErr → Str
  | .keyError k => '\'' :: k ++ ['\'']
  | .typeError m => m
  | .valueError m => m
  | .exn m => m

/-- One attempted call to `proxmox_api.update_vm_tags(node, vmid, tags, type)`. -/
structure Call where
  node : Value
  vmid : Value
  tags : Str
  vm_type : Value
  deriving DecidableEq

/-- The external tag-mutation collaborator: decides whether each attempted
call succeeds or raises. -/
abbrev Env := Call → Except PyErr Unit

/-- An environment in which every tag-mutation call succeeds. -/
def envOK : Env := fun _ => .ok ()

/-! ## Operator implementations (`engine.py`, `_op_*`)

Each operator is a function `Value → Value → Except PyErr Bool`; `.error`
models an exception escaping the operator function (caught by
`_evaluate_condition`'s blanket handler).  Operators that cannot raise are
written as plain `Bool` functions and wrapped. -/

def op_equals (fv cv : Value) : Bool := pyLower (pyStr fv) == pyLower (pyStr cv)

def op_not_equals (fv cv : Value) : Bool := !(pyLower (pyStr fv) == pyLower (pyStr cv))

/-- Python's substring test `a in b`. -/
def strContains (hay needle : Str) : Bool := hay.tails.any needle.isPrefixOf

def op_contains (fv cv : Value) : Bool := strContains (pyLower (pyStr fv)) (pyLower (pyStr cv))

def op_not_contains (fv cv : Value) : Bool := !(strContains (pyLower (pyStr fv)) (pyLower (pyStr cv)))

def op_greater_than (fv cv : Value) : Bool :=
  match pyFloat fv, pyFloat cv with
  | some a, some b => a > b
  | _, _ => false

def op_less_than (fv cv : Value) : Bool :=
  match pyFloat fv, pyFloat cv with
  | some a, some b => a < b
  | _, _ => false

def op_greater_equals (fv cv : Value) : Bool :=
  match pyFloat fv, pyFloat cv with
  | some a, some b => a ≥ b
  | _, _ => false

def op_less_equals (fv cv : Value) : Bool :=
  match pyFloat fv, pyFloat cv with
  | some a, some b => a ≤ b
  | _, _ => false

/-- `re.search(pattern, str(field_value))` with `except re.error: return False`
inside the operator; a non-string pattern raises `TypeError`, which the
operator does not catch. -/
def op_regex (fv pattern : Value) : Except PyErr Bool :=
  match pattern with
  | .str p =>
    match regexParse p with
    | .error _ => .ok false
    | .ok toks => .ok (reSearch toks (pyStr fv))
  | _ => .error (.typeError (litS "first argument must be string or compiled pattern"))

def op_in (fv cv : Value) : Bool :=
  let compare_list := match cv with | .list vs => vs | v => [v]
  (compare_list.map (fun v => pyLower (pyStr v))).contains (pyLower (pyStr fv))

def op_not_in (fv cv : Value) : Bool :=
  let compare_list := match cv with | .list vs => vs | v => [v]
  !((compare_list.map (fun v => pyLower (pyStr v))).contains (pyLower (pyStr fv)))

/-- The engine's operator dispatch table (`self.operators.get(...)`), keyed by
the `OperatorType` enum's string values; an unknown name yields `none`. -/
def operators_get (name : Str) : Option (Value → Value → Except PyErr Bool) :=
  if name == litS "equals" then some (fun a b => .ok (op_equals a b))
  else if name == litS "not_equals" then some (fun a b => .ok (op_not_equals a b))
  else if name == litS "contains" then some (fun a b => .ok (op_contains a b))
  else if name == litS "not_contains" then some (fun a b => .ok (op_not_contains a b))
  else if name == litS "greater_than" then some (fun a b => .ok (op_greater_than a b))
  else if name == litS "less_than" then some (fun a b => .ok (op_less_than a b))
  else if name == litS "greater_equals" then some (fun a b => .ok (op_greater_equals a b))
  else if name == litS "less_equals" then some (fun a b => .ok (op_less_equals a b))
  else if name == litS "regex" then some op_regex
  else if name == litS "in" then some (fun a b => .ok (op_in a b))
  else if name == litS "not_in" then some (fun a b => .ok (op_not_in a b))
  else Option.none

/-! ## Data model (`models.py`) -/

/-- A single condition (`RuleCondition`); the operator is kept as its wire
string, the `OperatorType` enum's value. -/
structure RuleCondition where
  field : Str
  operator : Str
  value : Value
  deriving DecidableEq

inductive LogicalOperator where
  | AND
  | OR
  deriving DecidableEq

structure RuleConditionGroup where
  operator : LogicalOperator := .AND
  conditions : List RuleCondition := []
  deriving DecidableEq

structure RuleAction where
  add_tags : List Str := []
  remove_tags : List Str := []
  else_add_tags : List Str := []
  else_remove_tags : List Str := []
  deriving DecidableEq

structure RuleSchedule where
  enabled : Bool := false
  cron : Str := []
  deriving DecidableEq

structure RuleStats where
  total_matches : Nat := 0
  tags_added : Nat := 0
  tags_removed : Nat := 0
  last_execution_time : Nat := 0
  deriving DecidableEq

/-- `ConditionalRule`.  Timestamps are opaque `Nat` ticks. -/
structure ConditionalRule where
  id : Str
  name : Str
  description : Str := []
  enabled : Bool := true
  conditions : RuleConditionGroup := {}
  actions : RuleAction := {}
  schedule : RuleSchedule := {}
  created_at : Nat := 0
  updated_at : Nat := 0
  last_run : Option Nat := Option.none
  stats : RuleStats := {}
  deriving DecidableEq

/-- `ExecutionResult`.  The three tag maps are dictionaries keyed by the
resource's `vmid` value, in insertion order. -/
structure ExecutionResult where
  rule_id : Str
  rule_name : Str := []
  success : Bool := true
  timestamp : Nat := 0
  matched_vms : List Value := []
  tags_added : List (Value × List Str) := []
  tags_removed : List (Value × List Str) := []
  tags_already_present : List (Value × List Str) := []
  errors : List Str := []
  execution_time : Nat := 0
  dry_run : Bool := false
  deriving DecidableEq

/-! ## Rule evaluation (`engine.py`, `RuleEngine`) -/

/-- `tag_utils.parse_tags` as the engine calls it, on a dynamic value: the
`isinstance(tags_string, str)` guard sends every non-string to `[]`. -/
def parse_tags (v : Value) : List Str :=
  match v with
  | .str s => parseTagsStr s
  | _ => []

/-- `_get_field_value`: split the path on `"."` and walk nested
dictionaries; any miss yields `None`. -/
def get_field_value (vm : PyDict) (field_path : Str) : Value :=
  go (splitOnChar '.' field_path) (Value.dict vm)
where
  go : List Str → Value → Value
    | [], v => v
    | p :: ps, .dict d =>
      match dictGet d p with
      | some v' => go ps v'
      | Option.none => Value.none
    | _ :: _, _ => Value.none

/-- `_evaluate_condition`: total. An unknown operator logs and returns
`False`; an exception escaping the operator function is caught and returns
`False`. -/
def evaluate_condition (c : RuleCondition) (vm : PyDict) : Bool :=
  let field_value := get_field_value vm c.field
  match operators_get c.operator with
  | Option.none => false
  | some f =>
    match f field_value c.value with
    | .ok b => b
    | .error _ => false

/-- `_evaluate_conditions`: an empty condition list is `False`; otherwise
AND is `all`, OR is `any`. -/
def evaluate_conditions (g : RuleConditionGroup) (vm : PyDict) : Bool :=
  if g.conditions.isEmpty then false
  else
    match g.operator with
    | .AND => g.conditions.all (fun c => evaluate_condition c vm)
    | .OR => g.conditions.any (fun c => evaluate_condition c vm)

/-! Python `set` values are modelled as duplicate-free lists. CPython's set
iteration order is unspecified; the model fixes first-insertion order, and no
claim below depends on the serialization order of a set. -/

/-- `set(l)`. -/
def setOfList (l : List Str) : List Str :=
  l.foldl (fun acc t => if acc.contains t then acc else acc ++ [t]) []

/-- `s.add(t)`. -/
def setAdd (s : List Str) (t : Str) : List Str :=
  if s.contains t then s else s ++ [t]

/-- `s.remove(t)`. -/
def setRemove (s : List Str) (t : Str) : List Str :=
  s.filter (fun x => !(x == t))

/-- Python `==` on sets: extensional equality. -/
def setEq (a b : List Str) : Bool :=
  a.all b.contains && b.all a.contains

/-- `result.<map>.setdefault(vmid, []).append(tag)`. -/
def mapAppend (m : List (Value × List Str)) (k : Value) (t : Str) : List (Value × List Str) :=
  match m with
  | [] => [(k, [t])]
  | (k', ts) :: rest =>
    if Value.beq k' k then (k', ts ++ [t]) :: rest else (k', ts) :: mapAppend rest k t

/-- The `# Add tags` loop, shared verbatim by `_apply_then_actions`,
`_apply_else_actions`, `_simulate_then_actions` and `_simulate_else_actions`:
for each requested tag (lowercased), either add it and record it under
`tags_added`, or record it under `tags_already_present`. -/
def addTagsLoop (tags : List Str) (vmid : Value) (acc : List Str × ExecutionResult) :
    List Str × ExecutionResult :=
  tags.foldl
    (fun (p : List Str × ExecutionResult) tag =>
      let tag_lower := pyLower tag
      if p.1.contains tag_lower then
        (p.1, { p.2 with tags_already_present := mapAppend p.2.tags_already_present vmid tag_lower })
      else
        (setAdd p.1 tag_lower, { p.2 with tags_added := mapAppend p.2.tags_added vmid tag_lower }))
    acc

/-- The `# Remove tags` loop, shared verbatim by the same four functions. -/
def removeTagsLoop (tags : List Str) (vmid : Value) (acc : List Str × ExecutionResult) :
    List Str × ExecutionResult :=
  tags.foldl
    (fun (p : List Str × ExecutionResult) tag =>
      let tag_lower := pyLower tag
      if p.1.contains tag_lower then
        (setRemove p.1 tag_lower, { p.2 with tags_removed := mapAppend p.2.tags_removed vmid tag_lower })
      else p)
    acc

/-- The error message appended on a failed per-resource update. -/
def failMsg (vmid : Value) (e : PyErr) : Str :=
  litS "Failed to update VM " ++ pyStr vmid ++ litS ": " ++ e.msg

/-- The error message an attempted call contributes under a given
environment: `none` when the call succeeds, the per-resource failure
message when it raises. -/
def callFailureMsg (env : Env) (c : Call) : Option Str :=
  match env c with
  | .ok _ => Option.none
  | .error e => some (failMsg c.vmid e)

/-- Two results agree on the three bookkeeping maps (`tags_added`,
`tags_removed`, `tags_already_present`). -/
def MapsEq (r1 r2 : ExecutionResult) : Prop :=
  r1.tags_added = r2.tags_added ∧ r1.tags_removed = r2.tags_removed ∧
    r1.tags_already_present = r2.tags_already_present

/-- The tag bookkeeping common to all four action functions: the add loop
followed by the remove loop, from a given starting set. -/
def tagWork (addL remL : List Str) (vmid : Value) (start : List Str) (r : ExecutionResult) :
    List Str × ExecutionResult :=
  removeTagsLoop remL vmid (addTagsLoop addL vmid (start, r))

/-- The `try: update_vm_tags(...) except` block of the apply functions:
attempt the external call; a failure appends to `errors` and is not
re-raised. -/
def attemptCall (env : Env) (call : Call) (r : ExecutionResult) :
    ExecutionResult × List Call × Option PyErr :=
  match env call with
  | .ok _ => (r, [call], Option.none)
  | .error e => ({ r with errors := r.errors ++ [failMsg call.vmid e] }, [call], Option.none)

/-- The tail of an `_apply_*_actions` iteration once the `vmid`/`node`/`type`
keys have been read: bookkeeping on the lowercased current tags, then the
external call when the new set differs from the original one. -/
def applyTagsUpdate (addL remL : List Str) (env : Env) (vmid node vm_type : Value)
    (cur : List Str) (r : ExecutionResult) : ExecutionResult × List Call × Option PyErr :=
  if setEq (tagWork addL remL vmid (setOfList (cur.map pyLower)) r).1 (setOfList cur) then
    ((tagWork addL remL vmid (setOfList (cur.map pyLower)) r).2, [], Option.none)
  else
    attemptCall env
      ⟨node, vmid, formatTags (tagWork addL remL vmid (setOfList (cur.map pyLower)) r).1, vm_type⟩
      (tagWork addL remL vmid (setOfList (cur.map pyLower)) r).2

/-- One iteration of the `_apply_*_actions` loop body: read the `vmid`,
`node` and `type` keys (a missing key raises `KeyError`, aborting the whole
rule), then `applyTagsUpdate`. -/
def applyActionsOne (addL remL : List Str) (env : Env) (r : ExecutionResult) (vm : PyDict) :
    ExecutionResult × List Call × Option PyErr :=
  match dictGet vm (litS "vmid") with
  | Option.none => (r, [], some (.keyError (litS "vmid")))
  | some vmid =>
  match dictGet vm (litS "node") with
  | Option.none => (r, [], some (.keyError (litS "node")))
  | some node =>
  match dictGet vm (litS "type") with
  | Option.none => (r, [], some (.keyError (litS "type")))
  | some vm_type =>
    applyTagsUpdate addL remL env vmid node vm_type
      (parse_tags (dictGetD vm (litS "tags") (.str []))) r

/-- The `for vm in vms` loop of `_apply_then_actions` / `_apply_else_actions`:
stops at the first uncaught exception, carrying the partially mutated result. -/
def applyActionsLoop (addL remL : List Str) (env : Env) :
    ExecutionResult → List PyDict → ExecutionResult × List Call × Option PyErr
  | r, [] => (r, [], Option.none)
  | r, vm :: rest =>
    match (applyActionsOne addL remL env r vm).2.2 with
    | some _ => applyActionsOne addL remL env r vm
    | Option.none =>
      ((applyActionsLoop addL remL env (applyActionsOne addL remL env r vm).1 rest).1,
       (applyActionsOne addL remL env r vm).2.1 ++
         (applyActionsLoop addL remL env (applyActionsOne addL remL env r vm).1 rest).2.1,
       (applyActionsLoop addL remL env (applyActionsOne addL remL env r vm).1 rest).2.2)

/-- One iteration of the `_simulate_*_actions` loop body (dry run): same
bookkeeping, except that the current tags are *not* lowercased
(`new_tags = set(current_tags)` in the source) and no external call is made. -/
def simulateActionsOne (addL remL : List Str) (r : ExecutionResult) (vm : PyDict) :
    ExecutionResult × Option PyErr :=
  match dictGet vm (litS "vmid") with
  | Option.none => (r, some (.keyError (litS "vmid")))
  | some vmid =>
    ((tagWork addL remL vmid (setOfList (parse_tags (dictGetD vm (litS "tags") (.str [])))) r).2,
     Option.none)

/-- The `for vm in vms` loop of `_simulate_then_actions` / `_simulate_else_actions`. -/
def simulateActionsLoop (addL remL : List Str) :
    ExecutionResult → List PyDict → ExecutionResult × Option PyErr
  | r, [] => (r, Option.none)
  | r, vm :: rest =>
    match (simulateActionsOne addL remL r vm).2 with
    | some _ => simulateActionsOne addL remL r vm
    | Option.none => simulateActionsLoop addL remL (simulateActionsOne addL remL r vm).1 rest

/-- `[vm['vmid'] for vm in matched_vms]` — raises on a missing key. -/
def vmidListOf : List PyDict → Except PyErr (List Value)
  | [] => .ok []
  | vm :: rest =>
    match dictGet vm (litS "vmid") with
    | Option.none => .error (.keyError (litS "vmid"))
    | some v => (vmidListOf rest).map (fun l => v :: l)

/-- The body of `evaluate_rule`'s `try` block: partition the VMs, record the
matched ids, run THEN actions on matched VMs (simulated when `dry_run`), and
ELSE actions on non-matched VMs when the rule defines any ELSE action.
Returns the (possibly partially mutated) result, the log of attempted
external calls, and the uncaught exception if one was raised.

Dispatch of one phase (THEN on matched or ELSE on non-matched VMs) to the
simulate loop or the apply loop according to `dry_run`. -/
def actionsPhase (addL remL : List Str) (dry_run : Bool) (env : Env) (r : ExecutionResult)
    (vms : List PyDict) : ExecutionResult × List Call × Option PyErr :=
  if dry_run then
    ((simulateActionsLoop addL remL r vms).1, [], (simulateActionsLoop addL remL r vms).2)
  else applyActionsLoop addL remL env r vms

def evaluate_rule_body (rule : ConditionalRule) (vms : List PyDict) (dry_run : Bool) (env : Env) :
    ExecutionResult × List Call × Option PyErr :=
  let r0 : ExecutionResult := { rule_id := rule.id, rule_name := rule.name, dry_run := dry_run }
  let matched_vms := vms.filter (fun vm => evaluate_conditions rule.conditions vm)
  let non_matched_vms := vms.filter (fun vm => !(evaluate_conditions rule.conditions vm))
  match vmidListOf matched_vms with
  | .error e => (r0, [], some e)
  | .ok ids =>
  let thenStep : ExecutionResult × List Call × Option PyErr :=
    if matched_vms.isEmpty then ({ r0 with matched_vms := ids }, [], Option.none)
    else
      actionsPhase rule.actions.add_tags rule.actions.remove_tags dry_run env
        { r0 with matched_vms := ids } matched_vms
  match thenStep.2.2 with
  | some _ => thenStep
  | Option.none =>
  let hasElse := !rule.actions.else_add_tags.isEmpty || !rule.actions.else_remove_tags.isEmpty
  let elseStep : ExecutionResult × List Call × Option PyErr :=
    if !non_matched_vms.isEmpty && hasElse then
      actionsPhase rule.actions.else_add_tags rule.actions.else_remove_tags dry_run env
        thenStep.1 non_matched_vms
    else (thenStep.1, [], Option.none)
  (elseStep.1, thenStep.2.1 ++ elseStep.2.1, elseStep.2.2)

/-- `RuleEngine.evaluate_rule`: run the body; an uncaught exception is
converted into `success = False` with `str(e)` appended to `errors`.
(The wall-clock `execution_time` stamped on the success path is not
modelled.) -/
def evaluate_rule (rule : ConditionalRule) (vms : List PyDict) (dry_run : Bool) (env : Env) :
    ExecutionResult × List Call :=
  match (evaluate_rule_body rule vms dry_run env).2.2 with
  | Option.none =>
    ((evaluate_rule_body rule vms dry_run env).1, (evaluate_rule_body rule vms dry_run env).2.1)
  | some e =>
    ({ (evaluate_rule_body rule vms dry_run env).1 with
       success := false
       errors := (evaluate_rule_body rule vms dry_run env).1.errors ++ [e.msg] },
     (evaluate_rule_body rule vms dry_run env).2.1)

/-! ## Rule storage (`storage.py`, `RuleStorage`) -/

/-- Association-list lookup, keyed by string (Python dict keyed by rule id). -/
def assocGet {α : Type} : List (Str × α) → Str → Option α
  | [], _ => Option.none
  | (k, v) :: rest, k' => if k = k' then some v else assocGet rest k'

/-- Association-list overwrite-or-append (Python dict assignment). -/
def assocSet {α : Type} : List (Str × α) → Str → α → List (Str × α)
  | [], k, v => [(k, v)]
  | (k', v') :: rest, k, v =>
    if k' = k then (k', v) :: rest else (k', v') :: assocSet rest k v

/-- Modelled from `CronTrigger.from_crontab`: five whitespace-separated
fields over the crontab alphabet.  The claims depend only on cron validity
being a decidable check that can fail, not on its precise grammar. -/
def cron_is_valid (s : Str) : Bool :=
  let fields := (splitOnChar ' ' (pyStrip s)).filter (fun f => !f.isEmpty)
  fields.length == 5 &&
    fields.all (fun f => f.all (fun c => c.isDigit || c = '*' || c = ',' || c = '-' || c = '/'))

/-- `ConditionalRule.validate`: the list of validation error messages. -/
def validate (rule : ConditionalRule) : List Str :=
  (if rule.name.isEmpty then [litS "Rule name is required"] else []) ++
  (if rule.conditions.conditions.isEmpty then [litS "At least one condition is required"] else []) ++
  (if rule.actions.add_tags.isEmpty && rule.actions.remove_tags.isEmpty &&
      rule.actions.else_add_tags.isEmpty && rule.actions.else_remove_tags.isEmpty then
    [litS "At least one action (THEN or ELSE add/remove tags) is required"]
  else []) ++
  (if rule.schedule.enabled then
    (if rule.schedule.cron.isEmpty then [litS "Cron expression is required when schedule is enabled"]
     else if cron_is_valid rule.schedule.cron then []
     else [litS "Invalid cron expression"])
  else [])

/-- The state of a `RuleStorage`: the in-memory collection (`self.rules`)
and the rule list last written to the storage file by `_save_rules`. -/
structure RuleStorage where
  rules : List (Str × ConditionalRule)
  fileRules : List ConditionalRule
  deriving DecidableEq

/-- The partial-update dictionary accepted by `update_rule`: a present field
replaces the rule's value (the `'key' in updates` checks). -/
structure RuleUpdates where
  name : Option Str := Option.none
  description : Option Str := Option.none
  enabled : Option Bool := Option.none
  conditions : Option RuleConditionGroup := Option.none
  actions : Option RuleAction := Option.none
  schedule : Option RuleSchedule := Option.none
  deriving DecidableEq

/-- The field-by-field assignments at the top of `update_rule`. -/
def mergeUpdates (r : ConditionalRule) (u : RuleUpdates) : ConditionalRule :=
  { r with
    name := u.name.getD r.name
    description := u.description.getD r.description
    enabled := u.enabled.getD r.enabled
    conditions := u.conditions.getD r.conditions
    actions := u.actions.getD r.actions
    schedule := u.schedule.getD r.schedule }

/-- The duplicate-name scan: any stored rule with the same name and a
different id. -/
def dupNameExists (rules : List (Str × ConditionalRule)) (name rid : Str) : Bool :=
  rules.any (fun p => p.2.name == name && !(p.2.id == rid))

/-- `RuleStorage.update_rule`.  Faithful to the source's in-place mutation:
the looked-up rule object is updated field by field *before* the duplicate
check and validation, so a failing update leaves the merged fields visible
in `rules` while `fileRules` (the persisted document) is only rewritten on
success.  `now` models `datetime.now()` for the `updated_at` bump. -/
def update_rule (s : RuleStorage) (rid : Str) (u : RuleUpdates) (now : Nat) :
    RuleStorage × Except PyErr (Option ConditionalRule) :=
  match assocGet s.rules rid with
  | Option.none => (s, .ok Option.none)
  | some rule =>
    let r1 := mergeUpdates rule u
    let rules1 := assocSet s.rules rid r1
    if u.name.isSome && dupNameExists rules1 r1.name r1.id then
      ({ s with rules := rules1 },
       .error (.valueError (litS "Rule with name already exists")))
    else
      let r2 := { r1 with updated_at := now }
      let rules2 := assocSet s.rules rid r2
      if !(validate r2).isEmpty then
        ({ s with rules := rules2 }, .error (.valueError (litS "Invalid rule")))
      else
        ({ rules := rules2, fileRules := rules2.map Prod.snd }, .ok (some r2))

/-- Total number of tags across all resources in one of the result's maps
(`sum(len(tags) for tags in result.<map>.values())`). -/
def totalTagCount (m : List (Value × List Str)) : Nat :=
  (m.map (fun p => p.2.length)).sum

/-- `RuleStorage.update_rule_stats`: a no-op when the rule id is unknown;
otherwise bump the cumulative counters, overwrite `last_execution_time`, set
`last_run` from the result's timestamp, and save. -/
def update_rule_stats (s : RuleStorage) (rid : Str) (result : ExecutionResult) : RuleStorage :=
  match assocGet s.rules rid with
  | Option.none => s
  | some rule =>
    let rule' :=
      { rule with
        last_run := some result.timestamp
        stats :=
          { total_matches := rule.stats.total_matches + result.matched_vms.length
            tags_added := rule.stats.tags_added + totalTagCount result.tags_added
            tags_removed := rule.stats.tags_removed + totalTagCount result.tags_removed
            last_execution_time := result.execution_time } }
    let rules' := assocSet s.rules rid rule'
    { rules := rules', fileRules := rules'.map Prod.snd }

/-! ## Execution history (`storage.py`, `ExecutionHistory`) -/

/-- The persisted history document: rule id → ordered list of executions. -/
abbrev History := List (Str × List ExecutionResult)

def max_history_per_rule : Nat := 100

/-- `ExecutionHistory.add_execution`: insert newest-first under the result's
rule id and trim to the retention cap. -/
def add_execution (h : History) (result : ExecutionResult) : History :=
  let rule_history := (assocGet h result.rule_id).getD []
  assocSet h result.rule_id ((result :: rule_history).take max_history_per_rule)

/-- `ExecutionHistory.get_rule_history`. -/
def get_rule_history (h : History) (rid : Str) (limit : Nat) : List ExecutionResult :=
  ((assocGet h rid).getD []).take limit

/-! ## The external world, for re-evaluation claims

`update_vm_tags` mutates the remote inventory; re-listing the resources
after a run returns each resource with the tag string from the last
successful call for its `vmid`.  This models the "resource states produced
by a prior live application". -/

/-- Apply the successful calls of a run to a resource batch: each resource
whose `vmid` has a successful call gets that call's tag string. -/
def applyCalls (env : Env) (calls : List Call) (vms : List PyDict) : List PyDict :=
  vms.map (fun vm =>
    match dictGet vm (litS "vmid") with
    | Option.none => vm
    | some vid =>
      match calls.find? (fun c => Value.beq c.vmid vid && (env c matches .ok _)) with
      | some c => dictSet vm (litS "tags") (.str c.tags)
      | Option.none => vm)

/-- The `vmid` value of a resource record (every record of interest carries
the key, so the default is never used). -/
def vmidOf (vm : PyDict) : Value := (dictGet vm (litS "vmid")).getD Value.none

/-- Specification of the tag set an `add_tags = [X]`-only live iteration
computes for one resource: `none` when the external call is skipped
(`new_tags == original_tags` in `_apply_then_actions`), `some w` when the
call sends the tag set `w`. -/
def postTagsSpec (X : Str) (vm : PyDict) : Option (List Str) :=
  let cur := parse_tags (dictGetD vm (litS "tags") (.str []))
  let s0 := setOfList (cur.map pyLower)
  let w := if s0.contains (pyLower X) then s0 else s0 ++ [pyLower X]
  if setEq w (setOfList cur) then Option.none else some w

/-- Specification of the external call an `add_tags = [X]`-only live
iteration makes for one resource (`none` when skipped; a record missing one
of the keys aborts the run before any call, so it also maps to `none`). -/
def callSpec (X : Str) (vm : PyDict) : Option Call :=
  match dictGet vm (litS "vmid"), dictGet vm (litS "node"), dictGet vm (litS "type") with
  | some v, some nd, some tp =>
    (postTagsSpec X vm).map (fun w => ⟨nd, v, formatTags w, tp⟩)
  | _, _, _ => Option.none

/-- The state of one resource after the calls of an `add_tags = [X]`-only
live run have been applied (`cond` is the rule's condition predicate). -/
def postState (X : Str) (cond : PyDict → Bool) (vm : PyDict) : PyDict :=
  if cond vm then
    match callSpec X vm with
    | some c => dictSet vm (litS "tags") (.str c.tags)
    | Option.none => vm
  else vm

/-! ## Helper lemmas: what the action loops do and do not touch -/

theorem addTagsLoop_cons_mem (t : Str) (ts : List Str) (vmid : Value) (nt : List Str)
    (r : ExecutionResult) (h : nt.contains (pyLower t) = true) :
    addTagsLoop (t :: ts) vmid (nt, r) =
      addTagsLoop ts vmid
        (nt, { r with tags_already_present := mapAppend r.tags_already_present vmid (pyLower t) }) := by
  have hm : pyLower t ∈ nt := by simpa using h
  simp [addTagsLoop, hm]

theorem addTagsLoop_cons_not_mem (t : Str) (ts : List Str) (vmid : Value) (nt : List Str)
    (r : ExecutionResult) (h : nt.contains (pyLower t) = false) :
    addTagsLoop (t :: ts) vmid (nt, r) =
      addTagsLoop ts vmid
        (setAdd nt (pyLower t), { r with tags_added := mapAppend r.tags_added vmid (pyLower t) }) := by
  have hm : pyLower t ∉ nt := by simpa using h
  simp [addTagsLoop, hm]

theorem removeTagsLoop_cons_mem (t : Str) (ts : List Str) (vmid : Value) (nt : List Str)
    (r : ExecutionResult) (h : nt.contains (pyLower t) = true) :
    removeTagsLoop (t :: ts) vmid (nt, r) =
      removeTagsLoop ts vmid
        (setRemove nt (pyLower t),
         { r with tags_removed := mapAppend r.tags_removed vmid (pyLower t) }) := by
  have hm : pyLower t ∈ nt := by simpa using h
  simp [removeTagsLoop, hm]

theorem removeTagsLoop_cons_not_mem (t : Str) (ts : List Str) (vmid : Value) (nt : List Str)
    (r : ExecutionResult) (h : nt.contains (pyLower t) = false) :
    removeTagsLoop (t :: ts) vmid (nt, r) = removeTagsLoop ts vmid (nt, r) := by
  have hm : pyLower t ∉ nt := by simpa using h
  simp [removeTagsLoop, hm]

/-- `addTagsLoop` only touches `tags_added` and `tags_already_present`:
there are maps `ta`, `tap` with which the loop's output is the input record
updated at exactly those two fields. -/
theorem addTagsLoop_update : ∀ (tags : List Str) (vmid : Value) (acc : List Str × ExecutionResult),
    ∃ ta tap,
      (addTagsLoop tags vmid acc).2 =
        { acc.2 with tags_added := ta, tags_already_present := tap }
  | [], vmid, acc => ⟨acc.2.tags_added, acc.2.tags_already_present, by simp [addTagsLoop]⟩
  | t :: ts, vmid, ⟨nt, r⟩ => by
    cases h : nt.contains (pyLower t) with
    | true =>
      rw [addTagsLoop_cons_mem t ts vmid nt r h]
      obtain ⟨ta, tap, hh⟩ := addTagsLoop_update ts vmid
        (nt, { r with tags_already_present := mapAppend r.tags_already_present vmid (pyLower t) })
      exact ⟨ta, tap, by rw [hh]⟩
    | false =>
      rw [addTagsLoop_cons_not_mem t ts vmid nt r h]
      obtain ⟨ta, tap, hh⟩ := addTagsLoop_update ts vmid
        (setAdd nt (pyLower t), { r with tags_added := mapAppend r.tags_added vmid (pyLower t) })
      exact ⟨ta, tap, by rw [hh]⟩

/-- `removeTagsLoop` only touches `tags_removed`. -/
theorem removeTagsLoop_update : ∀ (tags : List Str) (vmid : Value) (acc : List Str × ExecutionResult),
    ∃ trm, (removeTagsLoop tags vmid acc).2 = { acc.2 with tags_removed := trm }
  | [], vmid, acc => ⟨acc.2.tags_removed, by simp [removeTagsLoop]⟩
  | t :: ts, vmid, ⟨nt, r⟩ => by
    cases h : nt.contains (pyLower t) with
    | true =>
      rw [removeTagsLoop_cons_mem t ts vmid nt r h]
      obtain ⟨trm, hh⟩ := removeTagsLoop_update ts vmid
        (setRemove nt (pyLower t), { r with tags_removed := mapAppend r.tags_removed vmid (pyLower t) })
      exact ⟨trm, by rw [hh]⟩
    | false =>
      rw [removeTagsLoop_cons_not_mem t ts vmid nt r h]
      exact removeTagsLoop_update ts vmid (nt, r)

/-- `tagWork` only touches the three tag maps. -/
theorem tagWork_update (addL remL : List Str) (vmid : Value) (start : List Str)
    (r : ExecutionResult) :
    ∃ ta tap trm,
      (tagWork addL remL vmid start r).2 =
        { r with tags_added := ta, tags_already_present := tap, tags_removed := trm } := by
  obtain ⟨ta, tap, h1⟩ := addTagsLoop_update addL vmid (start, r)
  obtain ⟨trm, h2⟩ := removeTagsLoop_update remL vmid (addTagsLoop addL vmid (start, r))
  exact ⟨ta, tap, trm, by rw [tagWork, h2, h1]⟩

/-- One `_apply_*_actions` iteration only touches the three tag maps and
`errors`. -/
theorem applyActionsOne_update (addL remL : List Str) (env : Env) (r : ExecutionResult)
    (vm : PyDict) :
    ∃ ta tap trm er,
      (applyActionsOne addL remL env r vm).1 =
        { r with tags_added := ta, tags_already_present := tap, tags_removed := trm,
                 errors := er } := by
  unfold applyActionsOne
  cases dictGet vm (litS "vmid") with
  | none => exact ⟨r.tags_added, r.tags_already_present, r.tags_removed, r.errors, rfl⟩
  | some vmid =>
  cases dictGet vm (litS "node") with
  | none => exact ⟨r.tags_added, r.tags_already_present, r.tags_removed, r.errors, rfl⟩
  | some node =>
  cases dictGet vm (litS "type") with
  | none => exact ⟨r.tags_added, r.tags_already_present, r.tags_removed, r.errors, rfl⟩
  | some vm_type =>
  simp only [applyTagsUpdate]
  obtain ⟨ta, tap, trm, hw⟩ :=
    tagWork_update addL remL vmid
      (setOfList ((parse_tags (dictGetD vm (litS "tags") (.str []))).map pyLower)) r
  split
  · exact ⟨ta, tap, trm, r.errors, by rw [hw]⟩
  · unfold attemptCall
    cases env _ with
    | ok u => exact ⟨ta, tap, trm, r.errors, by rw [hw]⟩
    | error e => exact ⟨ta, tap, trm, _, by rw [hw]⟩

/-- One `_simulate_*_actions` iteration only touches the three tag maps. -/
theorem simulateActionsOne_update (addL remL : List Str) (r : ExecutionResult) (vm : PyDict) :
    ∃ ta tap trm,
      (simulateActionsOne addL remL r vm).1 =
        { r with tags_added := ta, tags_already_present := tap, tags_removed := trm } := by
  unfold simulateActionsOne
  cases dictGet vm (litS "vmid") with
  | none => exact ⟨r.tags_added, r.tags_already_present, r.tags_removed, rfl⟩
  | some vmid => exact tagWork_update addL remL vmid _ r

/-- The apply loop only touches the three tag maps and `errors`. -/
theorem applyActionsLoop_update : ∀ (vms : List PyDict) (addL remL : List Str) (env : Env)
    (r : ExecutionResult),
    ∃ ta tap trm er,
      (applyActionsLoop addL remL env r vms).1 =
        { r with tags_added := ta, tags_already_present := tap, tags_removed := trm,
                 errors := er }
  | [], addL, remL, env, r => ⟨r.tags_added, r.tags_already_present, r.tags_removed, r.errors, rfl⟩
  | vm :: rest, addL, remL, env, r => by
    cases hOne : (applyActionsOne addL remL env r vm).2.2 with
    | some e =>
      have hstep : applyActionsLoop addL remL env r (vm :: rest) =
          applyActionsOne addL remL env r vm := by
        simp [applyActionsLoop, hOne]
      rw [hstep]
      exact applyActionsOne_update addL remL env r vm
    | none =>
      have hstep : (applyActionsLoop addL remL env r (vm :: rest)).1 =
          (applyActionsLoop addL remL env (applyActionsOne addL remL env r vm).1 rest).1 := by
        simp [applyActionsLoop, hOne]
      obtain ⟨ta1, tap1, trm1, er1, h1⟩ := applyActionsOne_update addL remL env r vm
      obtain ⟨ta2, tap2, trm2, er2, h2⟩ :=
        applyActionsLoop_update rest addL remL env (applyActionsOne addL remL env r vm).1
      exact ⟨ta2, tap2, trm2, er2, by rw [hstep, h2, h1]⟩

/-- The simulate loop only touches the three tag maps. -/
theorem simulateActionsLoop_update : ∀ (vms : List PyDict) (addL remL : List Str)
    (r : ExecutionResult),
    ∃ ta tap trm,
      (simulateActionsLoop addL remL r vms).1 =
        { r with tags_added := ta, tags_already_present := tap, tags_removed := trm }
  | [], addL, remL, r => ⟨r.tags_added, r.tags_already_present, r.tags_removed, rfl⟩
  | vm :: rest, addL, remL, r => by
    cases hOne : (simulateActionsOne addL remL r vm).2 with
    | some e =>
      have hstep : simulateActionsLoop addL remL r (vm :: rest) =
          simulateActionsOne addL remL r vm := by
        simp [simulateActionsLoop, hOne]
      rw [hstep]
      obtain ⟨ta, tap, trm, h⟩ := simulateActionsOne_update addL remL r vm
      exact ⟨ta, tap, trm, h⟩
    | none =>
      have hstep : (simulateActionsLoop addL remL r (vm :: rest)).1 =
          (simulateActionsLoop addL remL (simulateActionsOne addL remL r vm).1 rest).1 := by
        simp [simulateActionsLoop, hOne]
      obtain ⟨ta1, tap1, trm1, h1⟩ := simulateActionsOne_update addL remL r vm
      obtain ⟨ta2, tap2, trm2, h2⟩ :=
        simulateActionsLoop_update rest addL remL (simulateActionsOne addL remL r vm).1
      exact ⟨ta2, tap2, trm2, by rw [hstep, h2, h1]⟩

/-- Either phase dispatch only touches the three tag maps and `errors`. -/
theorem actionsPhase_update (addL remL : List Str) (dry_run : Bool) (env : Env)
    (r : ExecutionResult) (vms : List PyDict) :
    ∃ ta tap trm er,
      (actionsPhase addL remL dry_run env r vms).1 =
        { r with tags_added := ta, tags_already_present := tap, tags_removed := trm,
                 errors := er } := by
  unfold actionsPhase
  split
  · obtain ⟨ta, tap, trm, h⟩ := simulateActionsLoop_update vms addL remL r
    exact ⟨ta, tap, trm, r.errors, by rw [h]⟩
  · exact applyActionsLoop_update vms addL remL env r

/-- If no VM satisfies the rule's conditions, the returned result reports an
empty `matched_vms`, on every path (dry or live, exception or not). -/
theorem evaluate_rule_matched_of_no_match (rule : ConditionalRule) (vms : List PyDict)
    (dry_run : Bool) (env : Env)
    (hfil : vms.filter (fun vm => evaluate_conditions rule.conditions vm) = []) :
    (evaluate_rule rule vms dry_run env).1.matched_vms = [] := by
  have hb : (evaluate_rule_body rule vms dry_run env).1.matched_vms = [] := by
    unfold evaluate_rule_body
    rw [hfil]
    simp only [vmidListOf, List.isEmpty_nil, reduceIte]
    split
    · obtain ⟨ta, tap, trm, er, hp⟩ :=
        actionsPhase_update rule.actions.else_add_tags rule.actions.else_remove_tags dry_run env
          { rule_id := rule.id, rule_name := rule.name, dry_run := dry_run, matched_vms := [] }
          (vms.filter fun vm => !evaluate_conditions rule.conditions vm)
      rw [hp]
    · rfl
  cases hE : (evaluate_rule_body rule vms dry_run env).2.2 with
  | none => simpa [evaluate_rule, hE] using hb
  | some e => simpa [evaluate_rule, hE] using hb

/-- C4: a rule whose condition group has an empty condition list matches no
resource: the group evaluates to false on every resource, and evaluating the
rule over any batch yields an empty `matched_vms` list. -/
theorem empty_condition_group_never_matches (g : RuleConditionGroup) (vm : PyDict)
    (rule : ConditionalRule) (vms : List PyDict) (dry_run : Bool) (env : Env)
    (hg : g.conditions = []) (hr : rule.conditions.conditions = []) :
    evaluate_conditions g vm = false ∧
      (evaluate_rule rule vms dry_run env).1.matched_vms = [] := by
  refine ⟨by simp [evaluate_conditions, hg], ?_⟩
  apply evaluate_rule_matched_of_no_match
  rw [List.filter_eq_nil_iff]
  intro a _
  simp [evaluate_conditions, hr]

/-- C4 witness: a concrete rule with an empty condition group over a
one-resource batch. -/
theorem empty_condition_group_never_matches_witness :
    evaluate_conditions { operator := .AND, conditions := [] } [(litS "vmid", Value.int 7)] = false ∧
      (evaluate_rule { id := litS "r", name := litS "n" }
          [[(litS "vmid", Value.int 7)]] false envOK).1.matched_vms = [] :=
  empty_condition_group_never_matches _ _ _ _ _ _ rfl rfl

/-- C5: the four numeric comparison operators return `False` whenever either
operand fails numeric coercion, and — as the dispatch-table entries show —
they never raise: applied through the table they always return `.ok false`
on such operands. -/
theorem numeric_operators_false_on_coercion_failure (fv cv : Value)
    (h : pyFloat fv = Option.none ∨ pyFloat cv = Option.none) :
    op_greater_than fv cv = false ∧ op_less_than fv cv = false ∧
    op_greater_equals fv cv = false ∧ op_less_equals fv cv = false ∧
    (∀ f ∈ operators_get (litS "greater_than"), f fv cv = Except.ok false) ∧
    (∀ f ∈ operators_get (litS "less_than"), f fv cv = Except.ok false) ∧
    (∀ f ∈ operators_get (litS "greater_equals"), f fv cv = Except.ok false) ∧
    (∀ f ∈ operators_get (litS "less_equals"), f fv cv = Except.ok false) := by
  have hgt : op_greater_than fv cv = false := by
    cases hf : pyFloat fv <;> cases hc : pyFloat cv <;> simp_all [op_greater_than]
  have hlt : op_less_than fv cv = false := by
    cases hf : pyFloat fv <;> cases hc : pyFloat cv <;> simp_all [op_less_than]
  have hge : op_greater_equals fv cv = false := by
    cases hf : pyFloat fv <;> cases hc : pyFloat cv <;> simp_all [op_greater_equals]
  have hle : op_less_equals fv cv = false := by
    cases hf : pyFloat fv <;> cases hc : pyFloat cv <;> simp_all [op_less_equals]
  refine ⟨hgt, hlt, hge, hle, ?_, ?_, ?_, ?_⟩
  · intro f hfm
    rw [show operators_get (litS "greater_than")
          = some (fun a b => Except.ok (op_greater_than a b)) from rfl] at hfm
    simp only [Option.mem_def, Option.some.injEq] at hfm
    subst hfm
    simp [hgt]
  · intro f hfm
    rw [show operators_get (litS "less_than")
          = some (fun a b => Except.ok (op_less_than a b)) from rfl] at hfm
    simp only [Option.mem_def, Option.some.injEq] at hfm
    subst hfm
    simp [hlt]
  · intro f hfm
    rw [show operators_get (litS "greater_equals")
          = some (fun a b => Except.ok (op_greater_equals a b)) from rfl] at hfm
    simp only [Option.mem_def, Option.some.injEq] at hfm
    subst hfm
    simp [hge]
  · intro f hfm
    rw [show operators_get (litS "less_equals")
          = some (fun a b => Except.ok (op_less_equals a b)) from rfl] at hfm
    simp only [Option.mem_def, Option.some.injEq] at hfm
    subst hfm
    simp [hle]

/-- C5 witness: `greater_than("abc", 5)` and friends on a non-coercible
operand. -/
theorem numeric_operators_false_on_coercion_failure_witness :
    (pyFloat (Value.str (litS "abc")) = Option.none ∨ pyFloat (Value.int 5) = Option.none) ∧
    op_greater_than (Value.str (litS "abc")) (Value.int 5) = false ∧
    op_less_than (Value.str (litS "abc")) (Value.int 5) = false ∧
    op_greater_equals (Value.str (litS "abc")) (Value.int 5) = false ∧
    op_less_equals (Value.str (litS "abc")) (Value.int 5) = false := by
  have h := numeric_operators_false_on_coercion_failure (Value.str (litS "abc")) (Value.int 5)
    (Or.inl (by decide))
  exact ⟨Or.inl (by decide), h.1, h.2.1, h.2.2.1, h.2.2.2.1⟩

/-- C10: single-condition evaluation is total by construction, an
unrecognized operator name evaluates to false, and an exception raised
inside an operator function (such as the `TypeError` from a non-string
regex pattern) is caught and evaluates to false. -/
theorem evaluate_condition_total (c : RuleCondition) (vm : PyDict) :
    (operators_get c.operator = Option.none → evaluate_condition c vm = false) ∧
    (∀ f e, operators_get c.operator = some f →
      f (get_field_value vm c.field) c.value = Except.error e →
      evaluate_condition c vm = false) := by
  constructor
  · intro h
    simp [evaluate_condition, h]
  · intro f e hf he
    simp [evaluate_condition, hf, he]

/-- C10 witness: an unknown operator name, and a regex condition whose
non-string pattern raises inside the operator; both evaluate to false. -/
theorem evaluate_condition_total_witness :
    evaluate_condition ⟨litS "x", litS "foo", Value.none⟩ [] = false ∧
    evaluate_condition ⟨litS "f", litS "regex", Value.int 3⟩ [] = false := by
  constructor
  · exact (evaluate_condition_total ⟨litS "x", litS "foo", Value.none⟩ []).1 rfl
  · exact (evaluate_condition_total ⟨litS "f", litS "regex", Value.int 3⟩ []).2 op_regex
      (.typeError (litS "first argument must be string or compiled pattern")) rfl rfl

/-! ## Helper lemmas: association lists and truncation -/

theorem assocGet_assocSet_self {α : Type} (l : List (Str × α)) (k : Str) (v : α) :
    assocGet (assocSet l k v) k = some v := by
  induction l with
  | nil => simp [assocSet, assocGet]
  | cons p rest ih =>
    obtain ⟨k', v'⟩ := p
    by_cases h : k' = k <;> simp [assocSet, assocGet, h, ih]

theorem assocGet_assocSet_ne {α : Type} (l : List (Str × α)) (k k2 : Str) (v : α)
    (h : k ≠ k2) : assocGet (assocSet l k v) k2 = assocGet l k2 := by
  induction l with
  | nil => simp [assocSet, assocGet, fun hh => h hh]
  | cons p rest ih =>
    obtain ⟨k', v'⟩ := p
    by_cases h1 : k' = k <;> by_cases h2 : k' = k2 <;>
      simp_all [assocSet, assocGet]

theorem take_append_take {α : Type} (a b : List α) (n : Nat) :
    (a ++ b.take n).take n = (a ++ b).take n := by
  rw [List.take_append_eq_append_take, List.take_append_eq_append_take, List.take_take]
  simp [Nat.min_eq_left (Nat.sub_le n a.length)]

/-! ## C6: `update_rule_stats` -/

/-- C6: `update_rule_stats` increments `total_matches` by the number of
matched ids, increments the `tags_added` / `tags_removed` counters by the
total tag count of the corresponding result maps, overwrites
`last_execution_time`, sets `last_run` from the result's timestamp, leaves
every other rule untouched — and is a no-op when the rule id is unknown. -/
theorem update_rule_stats_spec (s : RuleStorage) (rid : Str) (result : ExecutionResult) :
    (assocGet s.rules rid = Option.none → update_rule_stats s rid result = s) ∧
    (∀ rule, assocGet s.rules rid = some rule →
      assocGet (update_rule_stats s rid result).rules rid = some
        { rule with
          last_run := some result.timestamp
          stats :=
            { total_matches := rule.stats.total_matches + result.matched_vms.length
              tags_added := rule.stats.tags_added + totalTagCount result.tags_added
              tags_removed := rule.stats.tags_removed + totalTagCount result.tags_removed
              last_execution_time := result.execution_time } } ∧
      ∀ rid2, rid ≠ rid2 →
        assocGet (update_rule_stats s rid result).rules rid2 = assocGet s.rules rid2) := by
  constructor
  · intro h
    unfold update_rule_stats
    rw [h]
  · intro rule h
    unfold update_rule_stats
    rw [h]
    exact ⟨assocGet_assocSet_self _ _ _, fun rid2 hne => assocGet_assocSet_ne _ _ _ _ hne⟩

/-- C6 witness: a concrete store exercised on a hit and on a miss. -/
theorem update_rule_stats_spec_witness :
    update_rule_stats { rules := [], fileRules := [] } (litS "1") { rule_id := litS "1" }
        = { rules := [], fileRules := [] } ∧
    assocGet (update_rule_stats
        { rules := [(litS "1", { id := litS "1", name := litS "A" })], fileRules := [] }
        (litS "1")
        { rule_id := litS "1", timestamp := 5, matched_vms := [Value.int 1],
          tags_added := [(Value.int 1, [litS "x", litS "y"])], execution_time := 3 }).rules
      (litS "1")
      = some { id := litS "1", name := litS "A", last_run := some 5,
               stats := { total_matches := 1, tags_added := 2, tags_removed := 0,
                          last_execution_time := 3 } } := by
  constructor
  · exact (update_rule_stats_spec _ _ _).1 rfl
  · exact ((update_rule_stats_spec
      { rules := [(litS "1", { id := litS "1", name := litS "A" })], fileRules := [] }
      (litS "1")
      { rule_id := litS "1", timestamp := 5, matched_vms := [Value.int 1],
        tags_added := [(Value.int 1, [litS "x", litS "y"])], execution_time := 3 }).2
      { id := litS "1", name := litS "A" } rfl).1

/-! ## C7: history retention -/

/-- Folding `add_execution` over a batch of results, started from a history
whose entry for `rid` is within the cap: the entry for `rid` ends up being
the matching results, newest first, truncated to the cap. -/
theorem foldl_add_execution_getD : ∀ (L : List ExecutionResult) (h : History) (rid : Str),
    ((assocGet h rid).getD []).length ≤ max_history_per_rule →
    (assocGet (L.foldl add_execution h) rid).getD []
      = ((L.filter (fun r => r.rule_id == rid)).reverse ++ (assocGet h rid).getD []).take
          max_history_per_rule
  | [], h, rid, hlen => by
    simpa using (List.take_of_length_le hlen).symm
  | r :: rest, h, rid, hlen => by
    rw [List.foldl_cons]
    by_cases hid : r.rule_id = rid
    · have hget : (assocGet (add_execution h r) rid).getD []
          = (r :: (assocGet h r.rule_id).getD []).take max_history_per_rule := by
        unfold add_execution
        rw [hid, assocGet_assocSet_self]
        rfl
      have hlen2 : ((assocGet (add_execution h r) rid).getD []).length
          ≤ max_history_per_rule := by
        rw [hget]
        simp [Nat.min_le_left]
      rw [foldl_add_execution_getD rest (add_execution h r) rid hlen2, hget, hid]
      rw [take_append_take]
      simp [List.filter_cons, hid]
    · have hget : (assocGet (add_execution h r) rid).getD [] = (assocGet h rid).getD [] := by
        unfold add_execution
        rw [assocGet_assocSet_ne _ _ _ _ hid]
      have hlen2 : ((assocGet (add_execution h r) rid).getD []).length
          ≤ max_history_per_rule := by rw [hget]; exact hlen
      rw [foldl_add_execution_getD rest (add_execution h r) rid hlen2, hget]
      simp [List.filter_cons, hid]

/-- C7: starting from an empty history, appending any sequence of results
leaves, for every rule id, the matching results newest-first truncated to
the retention cap of 100 — in particular at most 100 entries, and appending
150 results for one rule keeps exactly the 100 most recent. -/
theorem history_retention_cap (L : List ExecutionResult) (rid : Str) :
    (assocGet (L.foldl add_execution ([] : History)) rid).getD []
        = ((L.filter (fun r => r.rule_id == rid)).reverse).take max_history_per_rule
    ∧ ((assocGet (L.foldl add_execution ([] : History)) rid).getD []).length
        ≤ max_history_per_rule := by
  have h := foldl_add_execution_getD L [] rid (by simp [assocGet])
  simp only [assocGet, Option.getD_none, List.append_nil] at h
  refine ⟨h, ?_⟩
  rw [h]
  simp [Nat.min_le_left]

/-! ## Helper lemmas: stripping, splitting and joining tag strings -/

theorem dropWhile_head_false (p : Char → Bool) :
    ∀ (l : Str) (c : Char), (l.dropWhile p).head? = some c → p c = false
  | [], c, h => by simp at h
  | a :: t, c, h => by
    by_cases ha : p a
    · exact dropWhile_head_false p t c (by simpa [List.dropWhile_cons, ha] using h)
    · simp only [List.dropWhile_cons, ha, if_false, Bool.false_eq_true, reduceIte,
        List.head?_cons, Option.some.injEq] at h
      rw [← h]
      exact Bool.of_not_eq_true ha

theorem dropWhile_eq_self_of_head (p : Char → Bool) (l : Str)
    (h : ∀ c, l.head? = some c → p c = false) : l.dropWhile p = l := by
  cases l with
  | nil => rfl
  | cons c t => simp [List.dropWhile_cons, h c rfl]

theorem dropWhile_idem (p : Char → Bool) (l : Str) :
    (l.dropWhile p).dropWhile p = l.dropWhile p :=
  dropWhile_eq_self_of_head p _ (dropWhile_head_false p l)

theorem getLast?_cons_ne (c : Char) (t : Str) (h : t ≠ []) :
    (c :: t).getLast? = t.getLast? := by
  cases t with
  | nil => exact absurd rfl h
  | cons b t' => exact List.getLast?_cons_cons

theorem getLast?_dropWhile (p : Char → Bool) :
    ∀ (l : Str), l.dropWhile p ≠ [] → (l.dropWhile p).getLast? = l.getLast?
  | [], h => by simp at h
  | c :: t, h => by
    by_cases hc : p c
    · have hd : (c :: t).dropWhile p = t.dropWhile p := by simp [List.dropWhile_cons, hc]
      rw [hd] at h ⊢
      have ht : t ≠ [] := by rintro rfl; exact h rfl
      rw [getLast?_dropWhile p t h, getLast?_cons_ne c t ht]
    · simp [List.dropWhile_cons, hc]

/-- `strip` is idempotent. -/
theorem pyStrip_idem (s : Str) : pyStrip (pyStrip s) = pyStrip s := by
  unfold pyStrip
  have hA : ((((s.dropWhile pyIsSpace).reverse.dropWhile pyIsSpace).reverse).dropWhile pyIsSpace)
      = ((s.dropWhile pyIsSpace).reverse.dropWhile pyIsSpace).reverse := by
    apply dropWhile_eq_self_of_head
    intro c hc
    have hd : ((s.dropWhile pyIsSpace).reverse.dropWhile pyIsSpace) ≠ [] := by
      intro hnil
      rw [hnil] at hc
      simp at hc
    rw [List.head?_reverse, getLast?_dropWhile pyIsSpace _ hd, List.getLast?_reverse] at hc
    exact dropWhile_head_false pyIsSpace s c hc
  rw [hA, List.reverse_reverse, dropWhile_idem]

theorem mem_pyStrip (s : Str) (c : Char) (h : c ∈ pyStrip s) : c ∈ s := by
  unfold pyStrip at h
  rw [List.mem_reverse] at h
  have h2 := (List.dropWhile_sublist pyIsSpace).mem h
  rw [List.mem_reverse] at h2
  exact (List.dropWhile_sublist pyIsSpace).mem h2

theorem splitOnChar_cons (sep c : Char) (rest : Str) :
    splitOnChar sep (c :: rest) =
      match splitOnChar sep rest with
      | [] => if c = sep then [[], []] else [[c]]
      | h :: t => if c = sep then [] :: h :: t else (c :: h) :: t := rfl

theorem splitOnChar_ne_nil (sep : Char) : ∀ (s : Str), splitOnChar sep s ≠ []
  | [] => by simp [splitOnChar]
  | c :: rest => by
    rw [splitOnChar_cons]
    cases hsp : splitOnChar sep rest with
    | nil => exact absurd hsp (splitOnChar_ne_nil sep rest)
    | cons h t => by_cases hc : c = sep <;> simp [hc]

theorem splitOnChar_sep_not_mem (sep : Char) :
    ∀ (s : Str), ∀ x ∈ splitOnChar sep s, sep ∉ x
  | [], x, hx => by
    simp [splitOnChar] at hx
    simp [hx]
  | c :: rest, x, hx => by
    rw [splitOnChar_cons] at hx
    cases hsp : splitOnChar sep rest with
    | nil => exact absurd hsp (splitOnChar_ne_nil sep rest)
    | cons h t =>
      rw [hsp] at hx
      by_cases hc : c = sep
      · simp only [hc, reduceIte, List.mem_cons] at hx
        rcases hx with rfl | hx
        · simp
        · exact splitOnChar_sep_not_mem sep rest x (hsp ▸ List.mem_cons.mpr hx)
      · simp only [hc, reduceIte, List.mem_cons] at hx
        rcases hx with rfl | hx
        · intro hmem
          rcases List.mem_cons.mp hmem with rfl | hmem
          · exact hc rfl
          · exact splitOnChar_sep_not_mem sep rest h (hsp ▸ List.mem_cons_self h t) hmem
        · exact splitOnChar_sep_not_mem sep rest x (hsp ▸ List.mem_cons_of_mem h hx)

theorem splitOnChar_no_sep (sep : Char) :
    ∀ (s : Str), sep ∉ s → splitOnChar sep s = [s]
  | [], _ => rfl
  | c :: rest, h => by
    have hc : c ≠ sep := fun hcc => h (hcc ▸ List.mem_cons_self c rest)
    have hrest : sep ∉ rest := fun hm => h (List.mem_cons_of_mem c hm)
    rw [splitOnChar_cons, splitOnChar_no_sep sep rest hrest]
    simp [hc]

theorem splitOnChar_append_sep (sep : Char) :
    ∀ (a b : Str), sep ∉ a → splitOnChar sep (a ++ sep :: b) = a :: splitOnChar sep b
  | [], b, _ => by
    show splitOnChar sep (sep :: b) = [] :: splitOnChar sep b
    rw [splitOnChar_cons]
    cases hsp : splitOnChar sep b with
    | nil => exact absurd hsp (splitOnChar_ne_nil sep b)
    | cons h t => simp
  | c :: a, b, ha => by
    have hc : c ≠ sep := fun hcc => ha (hcc ▸ List.mem_cons_self c a)
    have ha' : sep ∉ a := fun hm => ha (List.mem_cons_of_mem c hm)
    show splitOnChar sep (c :: (a ++ sep :: b)) = (c :: a) :: splitOnChar sep b
    rw [splitOnChar_cons, splitOnChar_append_sep sep a b ha']
    simp [hc]

theorem joinSemicolons_split :
    ∀ (l : List Str), (∀ x ∈ l, ';' ∉ x) → l ≠ [] →
      splitOnChar ';' (joinSemicolons l) = l
  | [], _, hne => absurd rfl hne
  | [x], hl, _ => by
    show splitOnChar ';' x = [x]
    exact splitOnChar_no_sep ';' x (hl x (List.mem_singleton_self x))
  | x :: y :: t, hl, _ => by
    show splitOnChar ';' (x ++ ';' :: joinSemicolons (y :: t)) = x :: (y :: t)
    rw [splitOnChar_append_sep ';' x _ (hl x (List.mem_cons_self x _))]
    rw [joinSemicolons_split (y :: t) (fun z hz => hl z (List.mem_cons_of_mem x hz)) (by simp)]

/-- Every tag produced by `parse_tags` is non-empty, stripped, and free of
semicolons. -/
theorem parseTagsStr_spec (s : Str) :
    ∀ x ∈ parseTagsStr s, x ≠ [] ∧ pyStrip x = x ∧ ';' ∉ x := by
  intro x hx
  unfold parseTagsStr at hx
  rw [List.mem_filter] at hx
  obtain ⟨hmem, hne⟩ := hx
  rw [List.mem_map] at hmem
  obtain ⟨c, hc, rfl⟩ := hmem
  refine ⟨by simpa using hne, pyStrip_idem c, ?_⟩
  intro hsem
  exact splitOnChar_sep_not_mem ';' s c hc (mem_pyStrip c ';' hsem)

/-- On a list of non-empty stripped tags, `format_tags` is just the
semicolon join. -/
theorem formatTags_of_clean (l : List Str) (hl : ∀ x ∈ l, x ≠ [] ∧ pyStrip x = x) :
    formatTags l = joinSemicolons l := by
  unfold formatTags
  have hfil : l.filter (fun t => t ≠ [] ∧ pyStrip t ≠ []) = l := by
    rw [List.filter_eq_self]
    intro a ha
    obtain ⟨h1, h2⟩ := hl a ha
    simp [h1, h2 ▸ h1]
  rw [hfil]
  have hmap : l.map pyStrip = l := by
    conv_rhs => rw [← List.map_id l]
    exact List.map_congr_left (fun a ha => (hl a ha).2)
  rw [hmap]

/-- Parsing is a left inverse of formatting on parsed output:
`parse(format(parse(s))) = parse(s)`. -/
theorem parse_formatTags_parse (s : Str) :
    parseTagsStr (formatTags (parseTagsStr s)) = parseTagsStr s := by
  have hspec := parseTagsStr_spec s
  rw [formatTags_of_clean (parseTagsStr s) (fun x hx => ⟨(hspec x hx).1, (hspec x hx).2.1⟩)]
  cases hp : parseTagsStr s with
  | nil => rfl
  | cons x t =>
    unfold parseTagsStr
    rw [joinSemicolons_split (x :: t) (fun z hz => (hspec z (hp ▸ hz)).2.2) (by simp)]
    have hmap : (x :: t).map pyStrip = x :: t := by
      conv_rhs => rw [← List.map_id (x :: t)]
      exact List.map_congr_left (fun a ha => (hspec a (hp ▸ ha)).2.1)
    rw [hmap, List.filter_eq_self.mpr]
    exact fun a ha => by simpa using (hspec a (hp ▸ ha)).1

/-- C9: formatting after parsing is a fixed point:
`format(parse(s)) == format(parse(format(parse(s))))` for every
semicolon-delimited tag string. -/
theorem format_parse_fixed_point (s : Str) :
    formatTags (parseTagsStr s) = formatTags (parseTagsStr (formatTags (parseTagsStr s))) := by
  rw [parse_formatTags_parse]

/-! ## C8: failed updates -/

/-- C8 (counterexample to the claim as stated): merging a partial update
whose result fails validation surfaces a `ValidationError`, but the
in-memory rule collection is *not* unchanged — the looked-up rule object was
mutated field by field before validation ran, so the merged (invalid) fields
remain visible in the store's collection. -/
theorem update_rule_fail_mutates_collection :
    (update_rule
        { rules := [(litS "1",
            { id := litS "1", name := litS "a",
              conditions :=
                ⟨.AND, [⟨litS "status", litS "equals", Value.str (litS "running")⟩]⟩,
              actions := { add_tags := [litS "x"] } })],
          fileRules := [] }
        (litS "1") { name := some [] } 7).2
      = Except.error (PyErr.valueError (litS "Invalid rule")) ∧
    (update_rule
        { rules := [(litS "1",
            { id := litS "1", name := litS "a",
              conditions :=
                ⟨.AND, [⟨litS "status", litS "equals", Value.str (litS "running")⟩]⟩,
              actions := { add_tags := [litS "x"] } })],
          fileRules := [] }
        (litS "1") { name := some [] } 7).1.rules
      ≠ [(litS "1",
            { id := litS "1", name := litS "a",
              conditions :=
                ⟨.AND, [⟨litS "status", litS "equals", Value.str (litS "running")⟩]⟩,
              actions := { add_tags := [litS "x"] } })] := by
  constructor
  · rfl
  · decide

/-- C8 (amended): when an update fails (duplicate name or failed
validation), the error is surfaced to the caller and the *persisted
document* is not rewritten — `fileRules` is exactly what it was — even
though the in-memory rule object keeps the merged fields. -/
theorem update_rule_error_not_persisted (s : RuleStorage) (rid : Str) (u : RuleUpdates)
    (now : Nat) (e : PyErr) (h : (update_rule s rid u now).2 = .error e) :
    (update_rule s rid u now).1.fileRules = s.fileRules := by
  unfold update_rule at h ⊢
  split
  next heq => rfl
  next rule heq =>
    rw [heq] at h
    dsimp only at h ⊢
    split at h
    next h1 =>
      rw [if_pos h1]
    next h1 =>
      rw [if_neg h1]
      split at h
      next h2 =>
        rw [if_pos h2]
      next h2 =>
        simp at h

/-- C8 amended witness: the concrete failing update of the counterexample
leaves the persisted document untouched. -/
theorem update_rule_error_not_persisted_witness :
    (update_rule
        { rules := [(litS "1",
            { id := litS "1", name := litS "a",
              conditions :=
                ⟨.AND, [⟨litS "status", litS "equals", Value.str (litS "running")⟩]⟩,
              actions := { add_tags := [litS "x"] } })],
          fileRules := [{ id := litS "2", name := litS "b" }] }
        (litS "1") { name := some [] } 7).1.fileRules
      = [{ id := litS "2", name := litS "b" }] :=
  update_rule_error_not_persisted _ _ _ _ (.valueError (litS "Invalid rule")) rfl

/-! ## Helper lemmas: the loops commute with changing `errors` -/

theorem addTagsLoop_errors : ∀ (tags : List Str) (vmid : Value) (nt : List Str)
    (r : ExecutionResult) (E : List Str),
    addTagsLoop tags vmid (nt, { r with errors := E }) =
      ((addTagsLoop tags vmid (nt, r)).1,
       { (addTagsLoop tags vmid (nt, r)).2 with errors := E })
  | [], vmid, nt, r, E => rfl
  | t :: ts, vmid, nt, r, E => by
    cases h : nt.contains (pyLower t) with
    | true =>
      rw [addTagsLoop_cons_mem t ts vmid nt _ h, addTagsLoop_cons_mem t ts vmid nt r h]
      exact addTagsLoop_errors ts vmid nt
        { r with tags_already_present := mapAppend r.tags_already_present vmid (pyLower t) } E
    | false =>
      rw [addTagsLoop_cons_not_mem t ts vmid nt _ h, addTagsLoop_cons_not_mem t ts vmid nt r h]
      exact addTagsLoop_errors ts vmid (setAdd nt (pyLower t))
        { r with tags_added := mapAppend r.tags_added vmid (pyLower t) } E

theorem removeTagsLoop_errors : ∀ (tags : List Str) (vmid : Value) (nt : List Str)
    (r : ExecutionResult) (E : List Str),
    removeTagsLoop tags vmid (nt, { r with errors := E }) =
      ((removeTagsLoop tags vmid (nt, r)).1,
       { (removeTagsLoop tags vmid (nt, r)).2 with errors := E })
  | [], vmid, nt, r, E => rfl
  | t :: ts, vmid, nt, r, E => by
    cases h : nt.contains (pyLower t) with
    | true =>
      rw [removeTagsLoop_cons_mem t ts vmid nt _ h, removeTagsLoop_cons_mem t ts vmid nt r h]
      exact removeTagsLoop_errors ts vmid (setRemove nt (pyLower t))
        { r with tags_removed := mapAppend r.tags_removed vmid (pyLower t) } E
    | false =>
      rw [removeTagsLoop_cons_not_mem t ts vmid nt _ h, removeTagsLoop_cons_not_mem t ts vmid nt r h]
      exact removeTagsLoop_errors ts vmid nt r E

theorem tagWork_errors (addL remL : List Str) (vmid : Value) (start : List Str)
    (r : ExecutionResult) (E : List Str) :
    tagWork addL remL vmid start { r with errors := E } =
      ((tagWork addL remL vmid start r).1,
       { (tagWork addL remL vmid start r).2 with errors := E }) := by
  unfold tagWork
  rw [addTagsLoop_errors]
  exact removeTagsLoop_errors remL vmid (addTagsLoop addL vmid (start, r)).1
    (addTagsLoop addL vmid (start, r)).2 E

/-- `tagWork` preserves `errors`. -/
theorem tagWork_errors_eq (addL remL : List Str) (vmid : Value) (start : List Str)
    (r : ExecutionResult) : (tagWork addL remL vmid start r).2.errors = r.errors := by
  obtain ⟨ta, tap, trm, hw⟩ := tagWork_update addL remL vmid start r
  rw [hw]

/-! ## Helper lemmas: per-resource failures are isolated (claim C2) -/

/-- One live iteration, run under an arbitrary environment from a result
that differs from a reference result only in `errors`, versus the same
iteration under the always-succeeding environment from the reference:
the bookkeeping, attempted call, and raised exception agree; only the
collected failure messages differ, and they are exactly the failures of the
attempted calls. -/
theorem applyActionsOne_env (addL remL : List Str) (env : Env) (r1 r2 : ExecutionResult)
    (vm : PyDict) (hrel : r1 = { r2 with errors := r1.errors }) :
    (applyActionsOne addL remL env r1 vm).1 =
      { (applyActionsOne addL remL envOK r2 vm).1 with
        errors := (applyActionsOne addL remL env r1 vm).1.errors } ∧
    (applyActionsOne addL remL env r1 vm).2.1 = (applyActionsOne addL remL envOK r2 vm).2.1 ∧
    (applyActionsOne addL remL env r1 vm).2.2 = (applyActionsOne addL remL envOK r2 vm).2.2 ∧
    (applyActionsOne addL remL env r1 vm).1.errors =
      r1.errors ++ (applyActionsOne addL remL env r1 vm).2.1.filterMap (callFailureMsg env) ∧
    (applyActionsOne addL remL envOK r2 vm).1.errors = r2.errors := by
  obtain ⟨E, rfl⟩ : ∃ E, r1 = { r2 with errors := E } := ⟨r1.errors, hrel⟩
  unfold applyActionsOne
  cases hv : dictGet vm (litS "vmid") with
  | none => exact ⟨rfl, rfl, rfl, by simp, rfl⟩
  | some vmid =>
  cases hn : dictGet vm (litS "node") with
  | none => exact ⟨rfl, rfl, rfl, by simp, rfl⟩
  | some node =>
  cases ht : dictGet vm (litS "type") with
  | none => exact ⟨rfl, rfl, rfl, by simp, rfl⟩
  | some vm_type =>
  dsimp only
  unfold applyTagsUpdate
  rw [tagWork_errors]
  by_cases hset :
      setEq (tagWork addL remL vmid
          (setOfList ((parse_tags (dictGetD vm (litS "tags") (.str []))).map pyLower)) r2).1
        (setOfList (parse_tags (dictGetD vm (litS "tags") (.str [])))) = true
  · rw [if_pos hset, if_pos hset]
    exact ⟨rfl, rfl, rfl, by simp, tagWork_errors_eq _ _ _ _ _⟩
  · rw [if_neg hset, if_neg hset]
    unfold attemptCall envOK
    cases he : env ⟨node, vmid,
        formatTags (tagWork addL remL vmid
          (setOfList ((parse_tags (dictGetD vm (litS "tags") (.str []))).map pyLower)) r2).1,
        vm_type⟩ with
    | ok u => exact ⟨rfl, rfl, rfl, by simp [callFailureMsg, he], tagWork_errors_eq _ _ _ _ _⟩
    | error e =>
      refine ⟨rfl, rfl, rfl, ?_, tagWork_errors_eq _ _ _ _ _⟩
      simp [callFailureMsg, he]

/-- The apply loop under an arbitrary environment versus the
always-succeeding one: same bookkeeping, same attempted calls, same raised
exception; the errors collected are exactly the failures of the attempted
calls, appended to the incoming errors. -/
theorem applyActionsLoop_env : ∀ (vms : List PyDict) (addL remL : List Str) (env : Env)
    (r1 r2 : ExecutionResult), r1 = { r2 with errors := r1.errors } →
    (applyActionsLoop addL remL env r1 vms).1 =
      { (applyActionsLoop addL remL envOK r2 vms).1 with
        errors := (applyActionsLoop addL remL env r1 vms).1.errors } ∧
    (applyActionsLoop addL remL env r1 vms).2.1 =
      (applyActionsLoop addL remL envOK r2 vms).2.1 ∧
    (applyActionsLoop addL remL env r1 vms).2.2 =
      (applyActionsLoop addL remL envOK r2 vms).2.2 ∧
    (applyActionsLoop addL remL env r1 vms).1.errors =
      r1.errors ++ (applyActionsLoop addL remL env r1 vms).2.1.filterMap (callFailureMsg env) ∧
    (applyActionsLoop addL remL envOK r2 vms).1.errors = r2.errors
  | [], addL, remL, env, r1, r2, hrel => ⟨hrel, rfl, rfl, by simp [applyActionsLoop], rfl⟩
  | vm :: rest, addL, remL, env, r1, r2, hrel => by
    obtain ⟨h1, h2, h3, h4, h5⟩ := applyActionsOne_env addL remL env r1 r2 vm hrel
    cases hOne : (applyActionsOne addL remL env r1 vm).2.2 with
    | some e =>
      have hOne2 : (applyActionsOne addL remL envOK r2 vm).2.2 = some e := by
        rw [← h3]; exact hOne
      have e1 : applyActionsLoop addL remL env r1 (vm :: rest) =
          applyActionsOne addL remL env r1 vm := by
        simp [applyActionsLoop, hOne]
      have e2 : applyActionsLoop addL remL envOK r2 (vm :: rest) =
          applyActionsOne addL remL envOK r2 vm := by
        simp [applyActionsLoop, hOne2]
      rw [e1, e2]
      exact ⟨h1, h2, h3, h4, h5⟩
    | none =>
      have hOne2 : (applyActionsOne addL remL envOK r2 vm).2.2 = Option.none := by
        rw [← h3]; exact hOne
      have e1 : applyActionsLoop addL remL env r1 (vm :: rest) =
          ((applyActionsLoop addL remL env (applyActionsOne addL remL env r1 vm).1 rest).1,
           (applyActionsOne addL remL env r1 vm).2.1 ++
             (applyActionsLoop addL remL env (applyActionsOne addL remL env r1 vm).1 rest).2.1,
           (applyActionsLoop addL remL env (applyActionsOne addL remL env r1 vm).1 rest).2.2) := by
        simp [applyActionsLoop, hOne]
      have e2 : applyActionsLoop addL remL envOK r2 (vm :: rest) =
          ((applyActionsLoop addL remL envOK (applyActionsOne addL remL envOK r2 vm).1 rest).1,
           (applyActionsOne addL remL envOK r2 vm).2.1 ++
             (applyActionsLoop addL remL envOK (applyActionsOne addL remL envOK r2 vm).1 rest).2.1,
           (applyActionsLoop addL remL envOK (applyActionsOne addL remL envOK r2 vm).1 rest).2.2) := by
        simp [applyActionsLoop, hOne2]
      obtain ⟨i1, i2, i3, i4, i5⟩ :=
        applyActionsLoop_env rest addL remL env (applyActionsOne addL remL env r1 vm).1
          (applyActionsOne addL remL envOK r2 vm).1 h1
      rw [e1, e2]
      refine ⟨i1, by rw [h2, i2], i3, ?_, by rw [i5, h5]⟩
      rw [i4, h4, List.filterMap_append, List.append_assoc]
  termination_by vms => vms.length

/-- Either phase leaves `success` untouched. -/
theorem actionsPhase_success (addL remL : List Str) (dry : Bool) (env : Env)
    (r : ExecutionResult) (vms : List PyDict) :
    (actionsPhase addL remL dry env r vms).1.success = r.success := by
  obtain ⟨ta, tap, trm, er, h⟩ := actionsPhase_update addL remL dry env r vms
  rw [h]

/-- The body of `evaluate_rule` returns the freshly initialised result with
only `matched_vms`, the three tag maps and `errors` filled in; in
particular `success` is still `true` and the identity fields are the
rule's. -/
theorem evaluate_rule_body_update (rule : ConditionalRule) (vms : List PyDict) (dry : Bool)
    (env : Env) :
    ∃ mv ta tap trm er,
      (evaluate_rule_body rule vms dry env).1 =
        { rule_id := rule.id, rule_name := rule.name, dry_run := dry, matched_vms := mv,
          tags_added := ta, tags_already_present := tap, tags_removed := trm, errors := er } := by
  unfold evaluate_rule_body
  cases hv : vmidListOf (vms.filter (fun vm => evaluate_conditions rule.conditions vm)) with
  | error e =>
    simp only [hv]
    exact ⟨[], [], [], [], [], rfl⟩
  | ok ids =>
    simp only [hv]
    cases hm : (vms.filter (fun vm => evaluate_conditions rule.conditions vm)).isEmpty with
    | true =>
      simp only [hm, reduceIte]
      split
      · obtain ⟨ta, tap, trm, er, hp⟩ := actionsPhase_update rule.actions.else_add_tags
          rule.actions.else_remove_tags dry env
          { rule_id := rule.id, rule_name := rule.name, dry_run := dry, matched_vms := ids }
          (vms.filter (fun vm => !evaluate_conditions rule.conditions vm))
        exact ⟨ids, ta, tap, trm, er, by rw [hp]⟩
      · exact ⟨ids, [], [], [], [], rfl⟩
    | false =>
      simp only [hm, Bool.false_eq_true, reduceIte]
      cases hts : (actionsPhase rule.actions.add_tags rule.actions.remove_tags dry env
          { rule_id := rule.id, rule_name := rule.name, dry_run := dry, matched_vms := ids }
          (vms.filter (fun vm => evaluate_conditions rule.conditions vm))).2.2 with
      | some e =>
        simp only [hts]
        obtain ⟨ta, tap, trm, er, hp⟩ := actionsPhase_update rule.actions.add_tags
          rule.actions.remove_tags dry env
          { rule_id := rule.id, rule_name := rule.name, dry_run := dry, matched_vms := ids }
          (vms.filter (fun vm => evaluate_conditions rule.conditions vm))
        exact ⟨ids, ta, tap, trm, er, by rw [hp]⟩
      | none =>
        simp only [hts]
        split
        · obtain ⟨ta1, tap1, trm1, er1, hp1⟩ := actionsPhase_update rule.actions.add_tags
            rule.actions.remove_tags dry env
            { rule_id := rule.id, rule_name := rule.name, dry_run := dry, matched_vms := ids }
            (vms.filter (fun vm => evaluate_conditions rule.conditions vm))
          obtain ⟨ta2, tap2, trm2, er2, hp2⟩ := actionsPhase_update rule.actions.else_add_tags
            rule.actions.else_remove_tags dry env
            (actionsPhase rule.actions.add_tags rule.actions.remove_tags dry env
              { rule_id := rule.id, rule_name := rule.name, dry_run := dry, matched_vms := ids }
              (vms.filter (fun vm => evaluate_conditions rule.conditions vm))).1
            (vms.filter (fun vm => !evaluate_conditions rule.conditions vm))
          exact ⟨ids, ta2, tap2, trm2, er2, by rw [hp2, hp1]⟩
        · obtain ⟨ta, tap, trm, er, hp⟩ := actionsPhase_update rule.actions.add_tags
            rule.actions.remove_tags dry env
            { rule_id := rule.id, rule_name := rule.name, dry_run := dry, matched_vms := ids }
            (vms.filter (fun vm => evaluate_conditions rule.conditions vm))
          exact ⟨ids, ta, tap, trm, er, by rw [hp]⟩

/-- A live (`dry_run = false`) evaluation body, compared to the same run in
the always-succeeding environment: bookkeeping, calls and exception agree,
and the errors are exactly the failure messages of the attempted calls. -/
theorem evaluate_rule_body_env (rule : ConditionalRule) (vms : List PyDict) (env : Env) :
    (evaluate_rule_body rule vms false env).1 =
      { (evaluate_rule_body rule vms false envOK).1 with
        errors := (evaluate_rule_body rule vms false env).1.errors } ∧
    (evaluate_rule_body rule vms false env).2.1 =
      (evaluate_rule_body rule vms false envOK).2.1 ∧
    (evaluate_rule_body rule vms false env).2.2 =
      (evaluate_rule_body rule vms false envOK).2.2 ∧
    (evaluate_rule_body rule vms false env).1.errors =
      (evaluate_rule_body rule vms false env).2.1.filterMap (callFailureMsg env) := by
  unfold evaluate_rule_body
  cases hv : vmidListOf (vms.filter (fun vm => evaluate_conditions rule.conditions vm)) with
  | error e =>
    simp only [hv]
    simp
  | ok ids =>
    simp only [hv]
    cases hm : (vms.filter (fun vm => evaluate_conditions rule.conditions vm)).isEmpty with
    | true =>
      simp only [hm, reduceIte]
      cases hc : !(vms.filter (fun vm => !evaluate_conditions rule.conditions vm)).isEmpty &&
          (!rule.actions.else_add_tags.isEmpty || !rule.actions.else_remove_tags.isEmpty) with
      | false =>
        simp only [hc, Bool.false_eq_true, reduceIte]
        simp
      | true =>
        simp only [hc, reduceIte, actionsPhase, Bool.false_eq_true]
        obtain ⟨u1, u2, u3, u4, u5⟩ := applyActionsLoop_env
          (vms.filter (fun vm => !evaluate_conditions rule.conditions vm))
          rule.actions.else_add_tags rule.actions.else_remove_tags env
          { rule_id := rule.id, rule_name := rule.name, dry_run := false, matched_vms := ids }
          { rule_id := rule.id, rule_name := rule.name, dry_run := false, matched_vms := ids }
          rfl
        exact ⟨u1, by rw [u2], u3, by simpa using u4⟩
    | false =>
      simp only [hm, Bool.false_eq_true, reduceIte, actionsPhase]
      obtain ⟨t1, t2, t3, t4, t5⟩ := applyActionsLoop_env
        (vms.filter (fun vm => evaluate_conditions rule.conditions vm))
        rule.actions.add_tags rule.actions.remove_tags env
        { rule_id := rule.id, rule_name := rule.name, dry_run := false, matched_vms := ids }
        { rule_id := rule.id, rule_name := rule.name, dry_run := false, matched_vms := ids }
        rfl
      cases hte : (applyActionsLoop rule.actions.add_tags rule.actions.remove_tags env
          { rule_id := rule.id, rule_name := rule.name, dry_run := false, matched_vms := ids }
          (vms.filter (fun vm => evaluate_conditions rule.conditions vm))).2.2 with
      | some e =>
        have hte2 : (applyActionsLoop rule.actions.add_tags rule.actions.remove_tags envOK
            { rule_id := rule.id, rule_name := rule.name, dry_run := false, matched_vms := ids }
            (vms.filter (fun vm => evaluate_conditions rule.conditions vm))).2.2 = some e := by
          rw [← t3]; exact hte
        simp only [hte, hte2]
        exact ⟨t1, t2, by trivial, by simpa using t4⟩
      | none =>
        have hte2 : (applyActionsLoop rule.actions.add_tags rule.actions.remove_tags envOK
            { rule_id := rule.id, rule_name := rule.name, dry_run := false, matched_vms := ids }
            (vms.filter (fun vm => evaluate_conditions rule.conditions vm))).2.2 = Option.none := by
          rw [← t3]; exact hte
        simp only [hte, hte2]
        cases hc : !(vms.filter (fun vm => !evaluate_conditions rule.conditions vm)).isEmpty &&
            (!rule.actions.else_add_tags.isEmpty || !rule.actions.else_remove_tags.isEmpty) with
        | false =>
          simp only [hc, Bool.false_eq_true, reduceIte]
          refine ⟨t1, by rw [t2], by trivial, ?_⟩
          simpa using t4
        | true =>
          simp only [hc, reduceIte]
          obtain ⟨u1, u2, u3, u4, u5⟩ := applyActionsLoop_env
            (vms.filter (fun vm => !evaluate_conditions rule.conditions vm))
            rule.actions.else_add_tags rule.actions.else_remove_tags env
            (applyActionsLoop rule.actions.add_tags rule.actions.remove_tags env
              { rule_id := rule.id, rule_name := rule.name, dry_run := false, matched_vms := ids }
              (vms.filter (fun vm => evaluate_conditions rule.conditions vm))).1
            (applyActionsLoop rule.actions.add_tags rule.actions.remove_tags envOK
              { rule_id := rule.id, rule_name := rule.name, dry_run := false, matched_vms := ids }
              (vms.filter (fun vm => evaluate_conditions rule.conditions vm))).1
            t1
          refine ⟨u1, by rw [t2, u2], u3, ?_⟩
          rw [u4, t4]
          simp [List.filterMap_append]

/-- C2 (counterexample to the claim as stated): in a live run where the
first resource's update call fails and the second resource then raises an
uncaught `KeyError` (missing `node` key), the whole-rule failure path sets
`success = false` but the exception message is *not* the sole entry in
`errors` — the earlier per-resource failure is still there. -/
theorem whole_rule_exception_not_sole_error :
    (evaluate_rule
        { id := litS "r2", name := litS "R2",
          conditions :=
            ⟨.AND, [⟨litS "type", litS "equals", Value.str (litS "qemu")⟩]⟩,
          actions := { add_tags := [litS "x"] } }
        [[(litS "vmid", Value.int 1), (litS "node", Value.str (litS "n1")),
          (litS "type", Value.str (litS "qemu")), (litS "tags", Value.str [])],
         [(litS "vmid", Value.int 2), (litS "type", Value.str (litS "qemu")),
          (litS "tags", Value.str [])]]
        false
        (fun c => if Value.beq c.vmid (Value.int 1) then .error (.exn (litS "boom"))
                  else .ok ())).1.success = false ∧
    (evaluate_rule
        { id := litS "r2", name := litS "R2",
          conditions :=
            ⟨.AND, [⟨litS "type", litS "equals", Value.str (litS "qemu")⟩]⟩,
          actions := { add_tags := [litS "x"] } }
        [[(litS "vmid", Value.int 1), (litS "node", Value.str (litS "n1")),
          (litS "type", Value.str (litS "qemu")), (litS "tags", Value.str [])],
         [(litS "vmid", Value.int 2), (litS "type", Value.str (litS "qemu")),
          (litS "tags", Value.str [])]]
        false
        (fun c => if Value.beq c.vmid (Value.int 1) then .error (.exn (litS "boom"))
                  else .ok ())).1.errors
      = [litS "Failed to update VM 1: boom", litS "'node'"] := by
  constructor
  · decide
  · decide

/-- C2 (amended): in a live run, per-resource update failures are isolated —
each failed call appends its error message, processing continues exactly as
it would if every call succeeded, and the result keeps `success = true` as
long as no exception is raised; a whole-rule exception yields
`success = false` with its message appended as the *last* entry of `errors`
(sole only when no per-resource failure preceded it). -/
theorem live_run_failure_semantics (rule : ConditionalRule) (vms : List PyDict) (env : Env) :
    (evaluate_rule_body rule vms false env).1.errors =
      (evaluate_rule_body rule vms false env).2.1.filterMap (callFailureMsg env) ∧
    (evaluate_rule_body rule vms false env).2.1 =
      (evaluate_rule_body rule vms false envOK).2.1 ∧
    (evaluate_rule_body rule vms false env).2.2 =
      (evaluate_rule_body rule vms false envOK).2.2 ∧
    (evaluate_rule_body rule vms false env).1 =
      { (evaluate_rule_body rule vms false envOK).1 with
        errors := (evaluate_rule_body rule vms false env).1.errors } ∧
    (evaluate_rule rule vms false env).1.success =
      (evaluate_rule_body rule vms false env).2.2.isNone ∧
    (evaluate_rule rule vms false env).1.errors =
      (evaluate_rule_body rule vms false env).1.errors ++
        ((evaluate_rule_body rule vms false env).2.2.elim [] (fun e => [e.msg])) := by
  obtain ⟨e1, e2, e3, e4⟩ := evaluate_rule_body_env rule vms env
  obtain ⟨mv, ta, tap, trm, er, hup⟩ := evaluate_rule_body_update rule vms false env
  refine ⟨e4, e2, e3, e1, ?_, ?_⟩
  · cases hb : (evaluate_rule_body rule vms false env).2.2 with
    | none =>
      unfold evaluate_rule
      rw [hb]
      rw [hup]
      rfl
    | some e =>
      unfold evaluate_rule
      rw [hb]
      rfl
  · cases hb : (evaluate_rule_body rule vms false env).2.2 with
    | none =>
      unfold evaluate_rule
      rw [hb]
      simp
    | some e =>
      unfold evaluate_rule
      rw [hb]
      rfl

/-! ## Helper lemmas: dry run versus live run (claim C1) -/

theorem addTagsLoop_mapsEq : ∀ (tags : List Str) (vmid : Value) (nt : List Str)
    (r1 r2 : ExecutionResult), MapsEq r1 r2 →
    (addTagsLoop tags vmid (nt, r1)).1 = (addTagsLoop tags vmid (nt, r2)).1 ∧
      MapsEq (addTagsLoop tags vmid (nt, r1)).2 (addTagsLoop tags vmid (nt, r2)).2
  | [], vmid, nt, r1, r2, h => ⟨rfl, h⟩
  | t :: ts, vmid, nt, r1, r2, h => by
    obtain ⟨h1, h2, h3⟩ := h
    cases hc : nt.contains (pyLower t) with
    | true =>
      rw [addTagsLoop_cons_mem t ts vmid nt r1 hc, addTagsLoop_cons_mem t ts vmid nt r2 hc]
      exact addTagsLoop_mapsEq ts vmid nt _ _ ⟨h1, h2, by simp [h3]⟩
    | false =>
      rw [addTagsLoop_cons_not_mem t ts vmid nt r1 hc, addTagsLoop_cons_not_mem t ts vmid nt r2 hc]
      exact addTagsLoop_mapsEq ts vmid _ _ _ ⟨by simp [h1], h2, h3⟩

theorem removeTagsLoop_mapsEq : ∀ (tags : List Str) (vmid : Value) (nt : List Str)
    (r1 r2 : ExecutionResult), MapsEq r1 r2 →
    (removeTagsLoop tags vmid (nt, r1)).1 = (removeTagsLoop tags vmid (nt, r2)).1 ∧
      MapsEq (removeTagsLoop tags vmid (nt, r1)).2 (removeTagsLoop tags vmid (nt, r2)).2
  | [], vmid, nt, r1, r2, h => ⟨rfl, h⟩
  | t :: ts, vmid, nt, r1, r2, h => by
    obtain ⟨h1, h2, h3⟩ := h
    cases hc : nt.contains (pyLower t) with
    | true =>
      rw [removeTagsLoop_cons_mem t ts vmid nt r1 hc, removeTagsLoop_cons_mem t ts vmid nt r2 hc]
      exact removeTagsLoop_mapsEq ts vmid _ _ _ ⟨h1, by simp [h2], h3⟩
    | false =>
      rw [removeTagsLoop_cons_not_mem t ts vmid nt r1 hc,
        removeTagsLoop_cons_not_mem t ts vmid nt r2 hc]
      exact removeTagsLoop_mapsEq ts vmid nt r1 r2 ⟨h1, h2, h3⟩

theorem tagWork_mapsEq (addL remL : List Str) (vmid : Value) (start : List Str)
    (r1 r2 : ExecutionResult) (h : MapsEq r1 r2) :
    (tagWork addL remL vmid start r1).1 = (tagWork addL remL vmid start r2).1 ∧
      MapsEq (tagWork addL remL vmid start r1).2 (tagWork addL remL vmid start r2).2 := by
  obtain ⟨ha, hm⟩ := addTagsLoop_mapsEq addL vmid start r1 r2 h
  unfold tagWork
  have e1 : addTagsLoop addL vmid (start, r1) =
      ((addTagsLoop addL vmid (start, r1)).1, (addTagsLoop addL vmid (start, r1)).2) := rfl
  have e2 : addTagsLoop addL vmid (start, r2) =
      ((addTagsLoop addL vmid (start, r2)).1, (addTagsLoop addL vmid (start, r2)).2) := rfl
  rw [e1, e2, ha]
  exact removeTagsLoop_mapsEq remL vmid _ _ _ hm

/-- Under present keys, already-lowercase current tags and an
always-succeeding environment, one live iteration performs exactly the
bookkeeping of one dry iteration, and neither raises. -/
theorem applyOne_simulateOne (addL remL : List Str) (env : Env) (r1 r2 : ExecutionResult)
    (vm : PyDict) (hmaps : MapsEq r1 r2)
    (hk : (dictGet vm (litS "vmid")).isSome ∧ (dictGet vm (litS "node")).isSome ∧
      (dictGet vm (litS "type")).isSome)
    (hl : ∀ t ∈ parse_tags (dictGetD vm (litS "tags") (.str [])), pyLower t = t)
    (he : ∀ c, env c = .ok ()) :
    MapsEq (applyActionsOne addL remL env r1 vm).1 (simulateActionsOne addL remL r2 vm).1 ∧
    (applyActionsOne addL remL env r1 vm).2.2 = Option.none ∧
    (simulateActionsOne addL remL r2 vm).2 = Option.none := by
  obtain ⟨hk1, hk2, hk3⟩ := hk
  unfold applyActionsOne simulateActionsOne
  cases hv : dictGet vm (litS "vmid") with
  | none => rw [hv] at hk1; simp at hk1
  | some vmid =>
  cases hn : dictGet vm (litS "node") with
  | none => rw [hn] at hk2; simp at hk2
  | some node =>
  cases ht : dictGet vm (litS "type") with
  | none => rw [ht] at hk3; simp at hk3
  | some vm_type =>
  dsimp only
  unfold applyTagsUpdate
  have hmapl : (parse_tags (dictGetD vm (litS "tags") (.str []))).map pyLower =
      parse_tags (dictGetD vm (litS "tags") (.str [])) := by
    conv_rhs => rw [← List.map_id (parse_tags (dictGetD vm (litS "tags") (.str [])))]
    exact List.map_congr_left hl
  rw [hmapl]
  obtain ⟨hw1, hw2⟩ := tagWork_mapsEq addL remL vmid
    (setOfList (parse_tags (dictGetD vm (litS "tags") (.str [])))) r1 r2 hmaps
  split
  · exact ⟨hw2, rfl, rfl⟩
  · unfold attemptCall
    rw [he _]
    exact ⟨hw2, rfl, rfl⟩

/-- The live loop performs exactly the bookkeeping of the dry loop, and
neither raises, under the same hypotheses over the whole batch. -/
theorem applyLoop_simulateLoop : ∀ (vms : List PyDict) (addL remL : List Str) (env : Env)
    (r1 r2 : ExecutionResult), MapsEq r1 r2 →
    (∀ vm ∈ vms, (dictGet vm (litS "vmid")).isSome ∧ (dictGet vm (litS "node")).isSome ∧
      (dictGet vm (litS "type")).isSome) →
    (∀ vm ∈ vms, ∀ t ∈ parse_tags (dictGetD vm (litS "tags") (.str [])), pyLower t = t) →
    (∀ c, env c = .ok ()) →
    MapsEq (applyActionsLoop addL remL env r1 vms).1 (simulateActionsLoop addL remL r2 vms).1 ∧
    (applyActionsLoop addL remL env r1 vms).2.2 = Option.none ∧
    (simulateActionsLoop addL remL r2 vms).2 = Option.none
  | [], addL, remL, env, r1, r2, hmaps, _, _, _ => ⟨hmaps, rfl, rfl⟩
  | vm :: rest, addL, remL, env, r1, r2, hmaps, hk, hl, he => by
    obtain ⟨o1, o2, o3⟩ := applyOne_simulateOne addL remL env r1 r2 vm hmaps
      (hk vm (List.mem_cons_self vm rest)) (hl vm (List.mem_cons_self vm rest)) he
    have e1 : applyActionsLoop addL remL env r1 (vm :: rest) =
        ((applyActionsLoop addL remL env (applyActionsOne addL remL env r1 vm).1 rest).1,
         (applyActionsOne addL remL env r1 vm).2.1 ++
           (applyActionsLoop addL remL env (applyActionsOne addL remL env r1 vm).1 rest).2.1,
         (applyActionsLoop addL remL env (applyActionsOne addL remL env r1 vm).1 rest).2.2) := by
      simp [applyActionsLoop, o2]
    have e2 : simulateActionsLoop addL remL r2 (vm :: rest) =
        simulateActionsLoop addL remL (simulateActionsOne addL remL r2 vm).1 rest := by
      simp [simulateActionsLoop, o3]
    rw [e1, e2]
    exact applyLoop_simulateLoop rest addL remL env _ _ o1
      (fun v hv => hk v (List.mem_cons_of_mem vm hv))
      (fun v hv => hl v (List.mem_cons_of_mem vm hv)) he
  termination_by vms => vms.length

theorem actionsPhase_dry_live (addL remL : List Str) (env : Env) (r1 r2 : ExecutionResult)
    (vms : List PyDict) (hmaps : MapsEq r1 r2)
    (hk : ∀ vm ∈ vms, (dictGet vm (litS "vmid")).isSome ∧ (dictGet vm (litS "node")).isSome ∧
      (dictGet vm (litS "type")).isSome)
    (hl : ∀ vm ∈ vms, ∀ t ∈ parse_tags (dictGetD vm (litS "tags") (.str [])), pyLower t = t)
    (he : ∀ c, env c = .ok ()) :
    MapsEq (actionsPhase addL remL false env r1 vms).1 (actionsPhase addL remL true env r2 vms).1 ∧
    (actionsPhase addL remL false env r1 vms).2.2 = Option.none ∧
    (actionsPhase addL remL true env r2 vms).2.2 = Option.none ∧
    (actionsPhase addL remL true env r2 vms).2.1 = [] := by
  obtain ⟨m, x1, x2⟩ := applyLoop_simulateLoop vms addL remL env r1 r2 hmaps hk hl he
  unfold actionsPhase
  simp only [Bool.false_eq_true, reduceIte]
  exact ⟨m, x1, x2, by trivial⟩

/-- The body of a dry run does the same bookkeeping as the body of a live
run, raises the same exception if any, and attempts no calls — under
present keys, lowercase current tags, and an always-succeeding
environment. -/
theorem evaluate_rule_body_dry_live (rule : ConditionalRule) (vms : List PyDict) (env : Env)
    (hk : ∀ vm ∈ vms, (dictGet vm (litS "vmid")).isSome ∧ (dictGet vm (litS "node")).isSome ∧
      (dictGet vm (litS "type")).isSome)
    (hl : ∀ vm ∈ vms, ∀ t ∈ parse_tags (dictGetD vm (litS "tags") (.str [])), pyLower t = t)
    (he : ∀ c, env c = .ok ()) :
    MapsEq (evaluate_rule_body rule vms false env).1 (evaluate_rule_body rule vms true env).1 ∧
    (evaluate_rule_body rule vms false env).2.2 = (evaluate_rule_body rule vms true env).2.2 ∧
    (evaluate_rule_body rule vms true env).2.1 = [] := by
  have hkM : ∀ vm ∈ vms.filter (fun vm => evaluate_conditions rule.conditions vm),
      (dictGet vm (litS "vmid")).isSome ∧ (dictGet vm (litS "node")).isSome ∧
        (dictGet vm (litS "type")).isSome :=
    fun vm hv => hk vm (List.mem_of_mem_filter hv)
  have hlM : ∀ vm ∈ vms.filter (fun vm => evaluate_conditions rule.conditions vm),
      ∀ t ∈ parse_tags (dictGetD vm (litS "tags") (.str [])), pyLower t = t :=
    fun vm hv => hl vm (List.mem_of_mem_filter hv)
  have hkN : ∀ vm ∈ vms.filter (fun vm => !evaluate_conditions rule.conditions vm),
      (dictGet vm (litS "vmid")).isSome ∧ (dictGet vm (litS "node")).isSome ∧
        (dictGet vm (litS "type")).isSome :=
    fun vm hv => hk vm (List.mem_of_mem_filter hv)
  have hlN : ∀ vm ∈ vms.filter (fun vm => !evaluate_conditions rule.conditions vm),
      ∀ t ∈ parse_tags (dictGetD vm (litS "tags") (.str [])), pyLower t = t :=
    fun vm hv => hl vm (List.mem_of_mem_filter hv)
  unfold evaluate_rule_body
  cases hv : vmidListOf (vms.filter (fun vm => evaluate_conditions rule.conditions vm)) with
  | error e =>
    simp only [hv]
    refine ⟨⟨?_, ?_, ?_⟩, ?_, ?_⟩ <;> trivial
  | ok ids =>
    simp only [hv]
    cases hm : (vms.filter (fun vm => evaluate_conditions rule.conditions vm)).isEmpty with
    | true =>
      simp only [hm, reduceIte]
      cases hc : !(vms.filter (fun vm => !evaluate_conditions rule.conditions vm)).isEmpty &&
          (!rule.actions.else_add_tags.isEmpty || !rule.actions.else_remove_tags.isEmpty) with
      | false =>
        simp only [hc, Bool.false_eq_true, reduceIte]
        refine ⟨⟨?_, ?_, ?_⟩, ?_, ?_⟩ <;> trivial
      | true =>
        simp only [hc, reduceIte]
        obtain ⟨m, x1, x2, hcalls⟩ := actionsPhase_dry_live rule.actions.else_add_tags
          rule.actions.else_remove_tags env
          { rule_id := rule.id, rule_name := rule.name, dry_run := false, matched_vms := ids }
          { rule_id := rule.id, rule_name := rule.name, dry_run := true, matched_vms := ids }
          (vms.filter (fun vm => !evaluate_conditions rule.conditions vm))
          ⟨rfl, rfl, rfl⟩ hkN hlN he
        refine ⟨m, by simp [x1, x2], by simp [hcalls]⟩
    | false =>
      simp only [hm, Bool.false_eq_true, reduceIte]
      obtain ⟨mt, t1, t2, tcalls⟩ := actionsPhase_dry_live rule.actions.add_tags
        rule.actions.remove_tags env
        { rule_id := rule.id, rule_name := rule.name, dry_run := false, matched_vms := ids }
        { rule_id := rule.id, rule_name := rule.name, dry_run := true, matched_vms := ids }
        (vms.filter (fun vm => evaluate_conditions rule.conditions vm))
        ⟨rfl, rfl, rfl⟩ hkM hlM he
      simp only [t1, t2]
      cases hc : !(vms.filter (fun vm => !evaluate_conditions rule.conditions vm)).isEmpty &&
          (!rule.actions.else_add_tags.isEmpty || !rule.actions.else_remove_tags.isEmpty) with
      | false =>
        simp only [hc, Bool.false_eq_true, reduceIte]
        refine ⟨mt, by trivial, by simp [tcalls]⟩
      | true =>
        simp only [hc, reduceIte]
        obtain ⟨me, e1, e2, ecalls⟩ := actionsPhase_dry_live rule.actions.else_add_tags
          rule.actions.else_remove_tags env
          (actionsPhase rule.actions.add_tags rule.actions.remove_tags false env
            { rule_id := rule.id, rule_name := rule.name, dry_run := false, matched_vms := ids }
            (vms.filter (fun vm => evaluate_conditions rule.conditions vm))).1
          (actionsPhase rule.actions.add_tags rule.actions.remove_tags true env
            { rule_id := rule.id, rule_name := rule.name, dry_run := true, matched_vms := ids }
            (vms.filter (fun vm => evaluate_conditions rule.conditions vm))).1
          (vms.filter (fun vm => !evaluate_conditions rule.conditions vm))
          mt hkN hlN he
        refine ⟨me, by simp [e1, e2], by simp [tcalls, ecalls]⟩

/-- C1 (counterexample to the claim as stated): one resource whose current
tag string is `"Web"` (not lowercase) and a rule adding `"web"`, in an
environment where every call succeeds.  Live application lowercases the
current tags first and so reports `"web"` as already present; the dry run
does not lowercase them and reports `"web"` as added. -/
theorem dry_run_live_run_divergence :
    (evaluate_rule
        { id := litS "r1", name := litS "R1",
          conditions := ⟨.AND, [⟨litS "vmid", litS "equals", Value.int 1⟩]⟩,
          actions := { add_tags := [litS "web"] } }
        [[(litS "vmid", Value.int 1), (litS "node", Value.str (litS "n1")),
          (litS "type", Value.str (litS "qemu")), (litS "tags", Value.str (litS "Web"))]]
        true envOK).1.tags_added = [(Value.int 1, [litS "web"])] ∧
    (evaluate_rule
        { id := litS "r1", name := litS "R1",
          conditions := ⟨.AND, [⟨litS "vmid", litS "equals", Value.int 1⟩]⟩,
          actions := { add_tags := [litS "web"] } }
        [[(litS "vmid", Value.int 1), (litS "node", Value.str (litS "n1")),
          (litS "type", Value.str (litS "qemu")), (litS "tags", Value.str (litS "Web"))]]
        false envOK).1.tags_added = [] ∧
    (evaluate_rule
        { id := litS "r1", name := litS "R1",
          conditions := ⟨.AND, [⟨litS "vmid", litS "equals", Value.int 1⟩]⟩,
          actions := { add_tags := [litS "web"] } }
        [[(litS "vmid", Value.int 1), (litS "node", Value.str (litS "n1")),
          (litS "type", Value.str (litS "qemu")), (litS "tags", Value.str (litS "Web"))]]
        false envOK).1.tags_already_present = [(Value.int 1, [litS "web"])] ∧
    (evaluate_rule
        { id := litS "r1", name := litS "R1",
          conditions := ⟨.AND, [⟨litS "vmid", litS "equals", Value.int 1⟩]⟩,
          actions := { add_tags := [litS "web"] } }
        [[(litS "vmid", Value.int 1), (litS "node", Value.str (litS "n1")),
          (litS "type", Value.str (litS "qemu")), (litS "tags", Value.str (litS "Web"))]]
        true envOK).1.tags_already_present = [] := by
  refine ⟨?_, ?_, ?_, ?_⟩ <;> decide

/-- C1 (amended): provided every resource record carries its `vmid`,
`node` and `type` keys, every current tag is already lowercase, and every
tag-mutation call succeeds, the dry run produces exactly the same
`tags_added`, `tags_removed` and `tags_already_present` maps as the live
run, and makes no external call. -/
theorem dry_run_matches_live_run (rule : ConditionalRule) (vms : List PyDict) (env : Env)
    (hk : ∀ vm ∈ vms, (dictGet vm (litS "vmid")).isSome ∧ (dictGet vm (litS "node")).isSome ∧
      (dictGet vm (litS "type")).isSome)
    (hl : ∀ vm ∈ vms, ∀ t ∈ parse_tags (dictGetD vm (litS "tags") (.str [])), pyLower t = t)
    (he : ∀ c, env c = .ok ()) :
    (evaluate_rule rule vms true env).1.tags_added =
      (evaluate_rule rule vms false env).1.tags_added ∧
    (evaluate_rule rule vms true env).1.tags_removed =
      (evaluate_rule rule vms false env).1.tags_removed ∧
    (evaluate_rule rule vms true env).1.tags_already_present =
      (evaluate_rule rule vms false env).1.tags_already_present ∧
    (evaluate_rule rule vms true env).2 = [] := by
  obtain ⟨⟨m1, m2, m3⟩, hexn, hcalls⟩ := evaluate_rule_body_dry_live rule vms env hk hl he
  unfold evaluate_rule
  cases hb : (evaluate_rule_body rule vms false env).2.2 with
  | none =>
    have hbd : (evaluate_rule_body rule vms true env).2.2 = Option.none := by
      rw [← hexn]; exact hb
    simp only [hb, hbd]
    exact ⟨m1.symm, m2.symm, m3.symm, hcalls⟩
  | some e =>
    have hbd : (evaluate_rule_body rule vms true env).2.2 = some e := by
      rw [← hexn]; exact hb
    simp only [hb, hbd]
    exact ⟨m1.symm, m2.symm, m3.symm, hcalls⟩

/-- C1 amended witness: a resource whose tags are already lowercase. -/
theorem dry_run_matches_live_run_witness :
    (evaluate_rule
        { id := litS "r1", name := litS "R1",
          conditions := ⟨.AND, [⟨litS "vmid", litS "equals", Value.int 1⟩]⟩,
          actions := { add_tags := [litS "web"] } }
        [[(litS "vmid", Value.int 1), (litS "node", Value.str (litS "n1")),
          (litS "type", Value.str (litS "qemu")), (litS "tags", Value.str (litS "db;web"))]]
        true envOK).1.tags_added =
      (evaluate_rule
        { id := litS "r1", name := litS "R1",
          conditions := ⟨.AND, [⟨litS "vmid", litS "equals", Value.int 1⟩]⟩,
          actions := { add_tags := [litS "web"] } }
        [[(litS "vmid", Value.int 1), (litS "node", Value.str (litS "n1")),
          (litS "type", Value.str (litS "qemu")), (litS "tags", Value.str (litS "db;web"))]]
        false envOK).1.tags_added ∧
    (evaluate_rule
        { id := litS "r1", name := litS "R1",
          conditions := ⟨.AND, [⟨litS "vmid", litS "equals", Value.int 1⟩]⟩,
          actions := { add_tags := [litS "web"] } }
        [[(litS "vmid", Value.int 1), (litS "node", Value.str (litS "n1")),
          (litS "type", Value.str (litS "qemu")), (litS "tags", Value.str (litS "db;web"))]]
        true envOK).1.tags_removed =
      (evaluate_rule
        { id := litS "r1", name := litS "R1",
          conditions := ⟨.AND, [⟨litS "vmid", litS "equals", Value.int 1⟩]⟩,
          actions := { add_tags := [litS "web"] } }
        [[(litS "vmid", Value.int 1), (litS "node", Value.str (litS "n1")),
          (litS "type", Value.str (litS "qemu")), (litS "tags", Value.str (litS "db;web"))]]
        false envOK).1.tags_removed ∧
    (evaluate_rule
        { id := litS "r1", name := litS "R1",
          conditions := ⟨.AND, [⟨litS "vmid", litS "equals", Value.int 1⟩]⟩,
          actions := { add_tags := [litS "web"] } }
        [[(litS "vmid", Value.int 1), (litS "node", Value.str (litS "n1")),
          (litS "type", Value.str (litS "qemu")), (litS "tags", Value.str (litS "db;web"))]]
        true envOK).1.tags_already_present =
      (evaluate_rule
        { id := litS "r1", name := litS "R1",
          conditions := ⟨.AND, [⟨litS "vmid", litS "equals", Value.int 1⟩]⟩,
          actions := { add_tags := [litS "web"] } }
        [[(litS "vmid", Value.int 1), (litS "node", Value.str (litS "n1")),
          (litS "type", Value.str (litS "qemu")), (litS "tags", Value.str (litS "db;web"))]]
        false envOK).1.tags_already_present ∧
    (evaluate_rule
        { id := litS "r1", name := litS "R1",
          conditions := ⟨.AND, [⟨litS "vmid", litS "equals", Value.int 1⟩]⟩,
          actions := { add_tags := [litS "web"] } }
        [[(litS "vmid", Value.int 1), (litS "node", Value.str (litS "n1")),
          (litS "type", Value.str (litS "qemu")), (litS "tags", Value.str (litS "db;web"))]]
        true envOK).2 = [] :=
  dry_run_matches_live_run _ _ envOK (by decide) (by decide) (fun _ => rfl)

/-! ## C3: repeated live application

Character-level lemmas about `Char.toLower`. -/

theorem toNat_ofNat_valid (n : Nat) (h : n < 55296) : (Char.ofNat n).toNat = n := by
  simp [Char.ofNat, Nat.isValidChar, h, Char.ofNatAux, Char.toNat, UInt32.toNat]

theorem toLower_toNat_of_upper (c : Char) (h1 : 65 ≤ c.toNat) (h2 : c.toNat ≤ 90) :
    c.toLower.toNat = c.toNat + 32 := by
  unfold Char.toLower
  rw [if_pos ⟨h1, h2⟩]
  exact toNat_ofNat_valid _ (by omega)

theorem toLower_of_not_upper (c : Char) (h : ¬(65 ≤ c.toNat ∧ c.toNat ≤ 90)) :
    c.toLower = c := by
  unfold Char.toLower
  rw [if_neg h]

theorem toLower_toLower (c : Char) : c.toLower.toLower = c.toLower := by
  by_cases h : 65 ≤ c.toNat ∧ c.toNat ≤ 90
  · apply toLower_of_not_upper
    rw [toLower_toNat_of_upper c h.1 h.2]
    omega
  · rw [toLower_of_not_upper c h, toLower_of_not_upper c h]

theorem pyLower_pyLower (s : Str) : pyLower (pyLower s) = pyLower s := by
  unfold pyLower
  rw [List.map_map]
  exact List.map_congr_left (fun a _ => toLower_toLower a)

theorem pyIsSpace_false_of_toNat (c : Char) (h : 32 < c.toNat) : pyIsSpace c = false := by
  have k : ∀ (x : Char), x.toNat < 33 → c ≠ x := fun x hx he => by
    rw [he] at h; omega
  simp [pyIsSpace, k ' ' (by decide), k '\t' (by decide), k '\n' (by decide),
        k '\r' (by decide), k '\x0b' (by decide), k '\x0c' (by decide)]

theorem pyIsSpace_toLower (c : Char) : pyIsSpace c.toLower = pyIsSpace c := by
  by_cases h : 65 ≤ c.toNat ∧ c.toNat ≤ 90
  · rw [pyIsSpace_false_of_toNat c.toLower
        (by rw [toLower_toNat_of_upper c h.1 h.2]; omega),
      pyIsSpace_false_of_toNat c (by omega)]
  · rw [toLower_of_not_upper c h]

theorem toLower_ne_semicolon (c : Char) (h : c ≠ ';') : c.toLower ≠ ';' := by
  by_cases hu : 65 ≤ c.toNat ∧ c.toNat ≤ 90
  · intro he
    obtain ⟨hu1, hu2⟩ := hu
    have h1 := toLower_toNat_of_upper c hu1 hu2
    rw [he] at h1
    have h2 : Char.toNat ';' = 59 := by decide
    omega
  · rw [toLower_of_not_upper c hu]
    exact h

theorem pyLower_ne_nil (s : Str) (h : s ≠ []) : pyLower s ≠ [] := by
  cases s with
  | nil => exact absurd rfl h
  | cons a t => simp [pyLower]

theorem pyStrip_pyLower (s : Str) : pyStrip (pyLower s) = pyLower (pyStrip s) := by
  have hp : pyIsSpace ∘ Char.toLower = pyIsSpace := funext pyIsSpace_toLower
  unfold pyStrip pyLower
  rw [List.dropWhile_map, ← List.map_reverse, List.dropWhile_map, ← List.map_reverse, hp]

theorem clean_pyLower (t : Str) (h : t ≠ [] ∧ pyStrip t = t ∧ ';' ∉ t) :
    pyLower t ≠ [] ∧ pyStrip (pyLower t) = pyLower t ∧ ';' ∉ pyLower t := by
  refine ⟨pyLower_ne_nil t h.1, ?_, ?_⟩
  · rw [pyStrip_pyLower, h.2.1]
  · intro hm
    rw [pyLower, List.mem_map] at hm
    obtain ⟨a, ha, hl⟩ := hm
    exact toLower_ne_semicolon a (fun he => h.2.2 (he ▸ ha)) hl

/-! Set, dictionary and map lemmas. -/

theorem mem_foldl_setAdd (x : Str) :
    ∀ (l acc : List Str),
      x ∈ l.foldl (fun acc t => if acc.contains t then acc else acc ++ [t]) acc ↔
        x ∈ acc ∨ x ∈ l
  | [], acc => by simp
  | t :: ts, acc => by
    rw [List.foldl_cons, mem_foldl_setAdd x ts]
    by_cases h : acc.contains t
    · have hm : t ∈ acc := by simpa using h
      simp only [if_pos h, List.mem_cons]
      constructor
      · rintro (hx | hx)
        · exact Or.inl hx
        · exact Or.inr (Or.inr hx)
      · rintro (hx | rfl | hx)
        · exact Or.inl hx
        · exact Or.inl hm
        · exact Or.inr hx
    · simp only [if_neg h, List.mem_append, List.mem_cons, List.not_mem_nil, or_false]
      constructor
      · rintro ((hx | rfl) | hx)
        · exact Or.inl hx
        · exact Or.inr (Or.inl rfl)
        · exact Or.inr (Or.inr hx)
      · rintro (hx | rfl | hx)
        · exact Or.inl (Or.inl hx)
        · exact Or.inl (Or.inr rfl)
        · exact Or.inr hx

theorem mem_setOfList (x : Str) (l : List Str) : x ∈ setOfList l ↔ x ∈ l := by
  unfold setOfList
  rw [mem_foldl_setAdd]
  simp

theorem setEq_iff (a b : List Str) :
    setEq a b = true ↔ ((∀ x ∈ a, x ∈ b) ∧ (∀ x ∈ b, x ∈ a)) := by
  unfold setEq
  simp [List.all_eq_true]

theorem setEq_refl (a : List Str) : setEq a a = true :=
  (setEq_iff a a).mpr ⟨fun _ hx => hx, fun _ hx => hx⟩

theorem dictGet_dictSet_self (d : PyDict) (k : Str) (v : Value) :
    dictGet (dictSet d k v) k = some v := by
  induction d with
  | nil => simp [dictGet, dictSet]
  | cons p rest ih =>
    obtain ⟨k', v'⟩ := p
    unfold dictSet
    by_cases h : k' = k
    · rw [if_pos h]
      simp [dictGet]
    · rw [if_neg h]
      unfold dictGet
      rw [if_neg h]
      exact ih

theorem dictGet_dictSet_ne (d : PyDict) (k k2 : Str) (v : Value) (hne : k ≠ k2) :
    dictGet (dictSet d k v) k2 = dictGet d k2 := by
  induction d with
  | nil => simp [dictGet, dictSet, hne]
  | cons p rest ih =>
    obtain ⟨k', v'⟩ := p
    unfold dictSet
    by_cases h : k' = k
    · rw [if_pos h]
      unfold dictGet
      rw [if_neg hne, if_neg (h ▸ hne)]
    · rw [if_neg h]
      unfold dictGet
      by_cases h2 : k' = k2
      · rw [if_pos h2, if_pos h2]
      · rw [if_neg h2, if_neg h2]
        exact ih

theorem mapAppend_fresh :
    ∀ (m : List (Value × List Str)) (k : Value) (t : Str),
      (∀ p ∈ m, p.1 ≠ k) → mapAppend m k t = m ++ [(k, [t])]
  | [], _, _, _ => rfl
  | (k', ts) :: rest, k, t, h => by
    have hne : k' ≠ k := h (k', ts) (List.mem_cons_self _ _)
    have hbeq : Value.beq k' k = false := by
      cases hb : Value.beq k' k
      · rfl
      · exact absurd (Value.eq_of_beq k' k hb) hne
    unfold mapAppend
    rw [hbeq]
    simp only [Bool.false_eq_true, reduceIte, List.cons_append]
    rw [mapAppend_fresh rest k t (fun p hp => h p (List.mem_cons_of_mem _ hp))]

theorem beq_false_of_ne (a b : Value) (h : a ≠ b) : Value.beq a b = false := by
  cases hb : Value.beq a b
  · rfl
  · exact absurd (Value.eq_of_beq a b hb) h

theorem parse_tags_spec (v : Value) :
    ∀ x ∈ parse_tags v, x ≠ [] ∧ pyStrip x = x ∧ ';' ∉ x := by
  cases v with
  | str s => exact parseTagsStr_spec s
  | none => intro x hx; cases hx
  | bool b => intro x hx; cases hx
  | int n => intro x hx; cases hx
  | list l => intro x hx; cases hx
  | dict d => intro x hx; cases hx

theorem parseTagsStr_join_clean (l : List Str)
    (hl : ∀ x ∈ l, x ≠ [] ∧ pyStrip x = x ∧ ';' ∉ x) (hne : l ≠ []) :
    parseTagsStr (joinSemicolons l) = l := by
  unfold parseTagsStr
  rw [joinSemicolons_split l (fun z hz => (hl z hz).2.2) hne]
  have hmap : l.map pyStrip = l := by
    conv_rhs => rw [← List.map_id l]
    exact List.map_congr_left (fun a ha => (hl a ha).2.1)
  rw [hmap, List.filter_eq_self.mpr]
  exact fun a ha => by simpa using (hl a ha).1

theorem parseTagsStr_formatTags_clean (l : List Str)
    (hl : ∀ x ∈ l, x ≠ [] ∧ pyStrip x = x ∧ ';' ∉ x) :
    parseTagsStr (formatTags l) = l := by
  rw [formatTags_of_clean l (fun x hx => ⟨(hl x hx).1, (hl x hx).2.1⟩)]
  cases l with
  | nil => rfl
  | cons x t => exact parseTagsStr_join_clean (x :: t) hl (by simp)

/-! Per-resource lemmas for the `add_tags = [X]`-only live run. -/

theorem tagWork_addX_fst (X : Str) (v : Value) (s0 : List Str) (r : ExecutionResult) :
    (tagWork [X] [] v s0 r).1 =
      if s0.contains (pyLower X) then s0 else s0 ++ [pyLower X] := by
  by_cases h : s0.contains (pyLower X)
  · have hm : pyLower X ∈ s0 := by simpa using h
    simp [tagWork, removeTagsLoop, addTagsLoop, setAdd, hm]
  · have hm : pyLower X ∉ s0 := by simpa using h
    simp [tagWork, removeTagsLoop, addTagsLoop, setAdd, hm]

theorem tagWork_addX_snd_mem (X : Str) (v : Value) (s0 : List Str) (r : ExecutionResult)
    (h : s0.contains (pyLower X) = true) :
    tagWork [X] [] v s0 r =
      (s0, { r with tags_already_present := mapAppend r.tags_already_present v (pyLower X) }) := by
  have hm : pyLower X ∈ s0 := by simpa using h
  simp [tagWork, removeTagsLoop, addTagsLoop, hm]

theorem applyActionsOne_addX_calls (X : Str) (r : ExecutionResult) (vm : PyDict)
    (v nd tp : Value)
    (hv : dictGet vm (litS "vmid") = some v)
    (hn : dictGet vm (litS "node") = some nd)
    (ht : dictGet vm (litS "type") = some tp) :
    (applyActionsOne [X] [] envOK r vm).2.1 = (callSpec X vm).toList ∧
    (applyActionsOne [X] [] envOK r vm).2.2 = Option.none := by
  unfold applyActionsOne
  rw [hv, hn, ht]
  dsimp only
  unfold applyTagsUpdate callSpec postTagsSpec
  rw [hv, hn, ht]
  dsimp only
  rw [tagWork_addX_fst]
  constructor <;> split_ifs <;> rfl

theorem applyActionsOne_addX_present (X : Str) (r : ExecutionResult) (vm : PyDict)
    (v nd tp : Value)
    (hv : dictGet vm (litS "vmid") = some v)
    (hn : dictGet vm (litS "node") = some nd)
    (ht : dictGet vm (litS "type") = some tp)
    (hc : (setOfList ((parse_tags (dictGetD vm (litS "tags") (.str []))).map pyLower)).contains
        (pyLower X) = true)
    (hse : setEq (setOfList ((parse_tags (dictGetD vm (litS "tags") (.str []))).map pyLower))
        (setOfList (parse_tags (dictGetD vm (litS "tags") (.str [])))) = true) :
    applyActionsOne [X] [] envOK r vm =
      ({ r with tags_already_present := mapAppend r.tags_already_present v (pyLower X) }, [],
        Option.none) := by
  unfold applyActionsOne
  rw [hv, hn, ht]
  dsimp only
  unfold applyTagsUpdate
  rw [tagWork_addX_snd_mem X v _ r hc]
  dsimp only
  rw [if_pos hse]

/-! Loop characterizations and the applied world state. -/

theorem vmidListOf_eq :
    ∀ (ms : List PyDict), (∀ vm ∈ ms, (dictGet vm (litS "vmid")).isSome) →
      vmidListOf ms = .ok (ms.map vmidOf)
  | [], _ => rfl
  | vm :: rest, h => by
    obtain ⟨v, hv⟩ := Option.isSome_iff_exists.mp (h vm (List.mem_cons_self _ _))
    unfold vmidListOf
    rw [hv, vmidListOf_eq rest (fun w hw => h w (List.mem_cons_of_mem _ hw))]
    simp [Except.map, vmidOf, hv]

theorem applyActionsLoop_addX_calls (X : Str) :
    ∀ (ms : List PyDict) (r : ExecutionResult),
      (∀ vm ∈ ms, (dictGet vm (litS "vmid")).isSome ∧ (dictGet vm (litS "node")).isSome ∧
        (dictGet vm (litS "type")).isSome) →
      (applyActionsLoop [X] [] envOK r ms).2.1 = ms.filterMap (callSpec X) ∧
      (applyActionsLoop [X] [] envOK r ms).2.2 = Option.none
  | [], _, _ => ⟨rfl, rfl⟩
  | vm :: rest, r, h => by
    obtain ⟨hv1, hn1, ht1⟩ := h vm (List.mem_cons_self _ _)
    obtain ⟨v, hv⟩ := Option.isSome_iff_exists.mp hv1
    obtain ⟨nd, hn⟩ := Option.isSome_iff_exists.mp hn1
    obtain ⟨tp, ht⟩ := Option.isSome_iff_exists.mp ht1
    obtain ⟨hc1, hc2⟩ := applyActionsOne_addX_calls X r vm v nd tp hv hn ht
    obtain ⟨ih1, ih2⟩ := applyActionsLoop_addX_calls X rest
      (applyActionsOne [X] [] envOK r vm).1 (fun w hw => h w (List.mem_cons_of_mem _ hw))
    unfold applyActionsLoop
    rw [hc2]
    dsimp only
    rw [hc1, ih1, ih2, List.filterMap_cons]
    refine ⟨?_, rfl⟩
    cases hcs : callSpec X vm
    · simp
    · simp

theorem applyActionsLoop_addX_present (X : Str) :
    ∀ (ms : List PyDict) (r : ExecutionResult),
      (∀ vm ∈ ms, (dictGet vm (litS "vmid")).isSome ∧ (dictGet vm (litS "node")).isSome ∧
        (dictGet vm (litS "type")).isSome ∧
        (setOfList ((parse_tags (dictGetD vm (litS "tags") (.str []))).map pyLower)).contains
          (pyLower X) = true ∧
        setEq (setOfList ((parse_tags (dictGetD vm (litS "tags") (.str []))).map pyLower))
          (setOfList (parse_tags (dictGetD vm (litS "tags") (.str [])))) = true) →
      (∀ vm ∈ ms, ∀ p ∈ r.tags_already_present, p.1 ≠ vmidOf vm) →
      (ms.map vmidOf).Nodup →
      applyActionsLoop [X] [] envOK r ms =
        ({ r with tags_already_present :=
            r.tags_already_present ++ ms.map (fun vm => (vmidOf vm, [pyLower X])) }, [],
          Option.none)
  | [], r, _, _, _ => by simp [applyActionsLoop]
  | vm :: rest, r, h, hfresh, hnodup => by
    obtain ⟨hv1, hn1, ht1, hc, hse⟩ := h vm (List.mem_cons_self _ _)
    obtain ⟨v, hv⟩ := Option.isSome_iff_exists.mp hv1
    obtain ⟨nd, hn⟩ := Option.isSome_iff_exists.mp hn1
    obtain ⟨tp, ht⟩ := Option.isSome_iff_exists.mp ht1
    have hone := applyActionsOne_addX_present X r vm v nd tp hv hn ht hc hse
    have hvm : vmidOf vm = v := by simp [vmidOf, hv]
    have hma : mapAppend r.tags_already_present v (pyLower X)
        = r.tags_already_present ++ [(v, [pyLower X])] :=
      mapAppend_fresh _ v _ (fun p hp => by
        rw [← hvm]; exact hfresh vm (List.mem_cons_self _ _) p hp)
    rw [List.map_cons] at hnodup
    have hnd := List.nodup_cons.mp hnodup
    have ih := applyActionsLoop_addX_present X rest
      { r with tags_already_present := mapAppend r.tags_already_present v (pyLower X) }
      (fun w hw => h w (List.mem_cons_of_mem _ hw))
      (fun w hw p hp => by
        rw [hma] at hp
        rcases List.mem_append.mp hp with hp | hp
        · exact hfresh w (List.mem_cons_of_mem _ hw) p hp
        · rcases List.mem_singleton.mp hp with rfl
          intro he
          have he2 : v = vmidOf w := he
          exact hnd.1 (by rw [hvm, he2]; exact List.mem_map_of_mem _ hw))
      hnd.2
    unfold applyActionsLoop
    rw [hone]
    dsimp only
    rw [ih]
    dsimp only
    rw [hma]
    simp [hvm, List.append_assoc]

theorem contains_of_mem (l : List Str) (x : Str) (h : x ∈ l) : l.contains x = true := by
  simpa using h

theorem mem_of_contains (l : List Str) (x : Str) (h : l.contains x = true) : x ∈ l := by
  simpa using h

theorem callSpec_vmid (X : Str) (w : PyDict) (c : Call) (h : callSpec X w = some c) :
    dictGet w (litS "vmid") = some c.vmid := by
  unfold callSpec at h
  cases hv : dictGet w (litS "vmid") with
  | none => rw [hv] at h; simp at h
  | some v =>
    rw [hv] at h
    cases hn : dictGet w (litS "node") with
    | none => rw [hn] at h; simp at h
    | some nd =>
      rw [hn] at h
      cases ht : dictGet w (litS "type") with
      | none => rw [ht] at h; simp at h
      | some tp =>
        rw [ht] at h
        cases hp : postTagsSpec X w with
        | none => rw [hp] at h; simp at h
        | some wl =>
          rw [hp] at h
          have h2 : ({ node := nd, vmid := v, tags := formatTags wl, vm_type := tp } : Call)
              = c := Option.some.inj h
          rw [← h2]

theorem find_calls (X : Str) (vms : List PyDict)
    (hinj : ∀ a ∈ vms, ∀ b ∈ vms,
      dictGet a (litS "vmid") = dictGet b (litS "vmid") → a = b) :
    ∀ (ms : List PyDict), (∀ w ∈ ms, w ∈ vms) →
      ∀ vm ∈ vms, ∀ vid, dictGet vm (litS "vmid") = some vid →
        (ms.filterMap (callSpec X)).find? (fun c => Value.beq c.vmid vid) =
          (if vm ∈ ms then callSpec X vm else Option.none)
  | [], _, vm, _, vid, _ => by simp
  | w :: rest, hsub, vm, hvm, vid, hvid => by
    have hw : w ∈ vms := hsub w (List.mem_cons_self _ _)
    have ih := find_calls X vms hinj rest
      (fun u hu => hsub u (List.mem_cons_of_mem _ hu)) vm hvm vid hvid
    rw [List.filterMap_cons]
    cases hcs : callSpec X w with
    | none =>
      dsimp only
      rw [ih]
      by_cases hwvm : w = vm
      · subst hwvm
        by_cases hmem : w ∈ rest
        · rw [if_pos hmem, if_pos (List.mem_cons_self w rest)]
        · rw [if_neg hmem, if_pos (List.mem_cons_self w rest), hcs]
      · by_cases hmem : vm ∈ rest
        · rw [if_pos hmem, if_pos (List.mem_cons_of_mem _ hmem)]
        · rw [if_neg hmem, if_neg (fun hm => by
            rcases List.mem_cons.mp hm with he | hm
            · exact hwvm he.symm
            · exact hmem hm)]
    | some c =>
      dsimp only
      have hcv : dictGet w (litS "vmid") = some c.vmid := callSpec_vmid X w c hcs
      by_cases hwvm : w = vm
      · subst hwvm
        have hcvid : c.vmid = vid := by
          rw [hcv] at hvid
          exact Option.some.inj hvid
        have hpc : Value.beq c.vmid vid = true := by
          rw [hcvid]
          exact Value.beq_refl vid
        rw [List.find?_cons_of_pos (List.filterMap (callSpec X) rest)
          (show (fun c => Value.beq c.vmid vid) c = true from hpc),
          if_pos (List.mem_cons_self w rest), hcs]
      · have hne : c.vmid ≠ vid := fun he =>
          hwvm (hinj w hw vm hvm (by rw [hcv, hvid, he]))
        have hpc : Value.beq c.vmid vid = false := beq_false_of_ne _ _ hne
        rw [List.find?_cons_of_neg (List.filterMap (callSpec X) rest)
          (show ¬(fun c => Value.beq c.vmid vid) c = true from by simp [hpc]), ih]
        by_cases hmem : vm ∈ rest
        · rw [if_pos hmem, if_pos (List.mem_cons_of_mem _ hmem)]
        · rw [if_neg hmem, if_neg (fun hm => by
            rcases List.mem_cons.mp hm with he | hm
            · exact hwvm he.symm
            · exact hmem hm)]

theorem applyCalls_eq_postState (X : Str) (cond : PyDict → Bool) (vms : List PyDict)
    (hk : ∀ vm ∈ vms, (dictGet vm (litS "vmid")).isSome)
    (hinj : ∀ a ∈ vms, ∀ b ∈ vms,
      dictGet a (litS "vmid") = dictGet b (litS "vmid") → a = b) :
    applyCalls envOK ((vms.filter cond).filterMap (callSpec X)) vms =
      vms.map (postState X cond) := by
  unfold applyCalls
  apply List.map_congr_left
  intro vm hvm
  obtain ⟨vid, hvid⟩ := Option.isSome_iff_exists.mp (hk vm hvm)
  rw [hvid]
  dsimp only
  simp only [envOK, Bool.and_true]
  rw [find_calls X vms hinj (vms.filter cond) (fun u hu => (List.mem_filter.mp hu).1) vm hvm
      vid hvid]
  by_cases hc : cond vm = true
  · rw [if_pos (List.mem_filter.mpr ⟨hvm, hc⟩)]
    unfold postState
    rw [if_pos hc]
  · rw [if_neg (fun hm => hc (List.mem_filter.mp hm).2)]
    unfold postState
    rw [if_neg hc]

theorem postState_keys (X : Str) (cond : PyDict → Bool) (vm : PyDict) (k : Str)
    (hk : k ≠ litS "tags") :
    dictGet (postState X cond vm) k = dictGet vm k := by
  unfold postState
  by_cases hc : cond vm = true
  · rw [if_pos hc]
    cases hcs : callSpec X vm with
    | none => rfl
    | some c => exact dictGet_dictSet_ne vm (litS "tags") k (.str c.tags) (Ne.symm hk)
  · rw [if_neg hc]

theorem postState_present (X : Str) (cond : PyDict → Bool) (vm : PyDict)
    (hXl : pyLower X ≠ [] ∧ pyStrip (pyLower X) = pyLower X ∧ ';' ∉ pyLower X)
    (hv : (dictGet vm (litS "vmid")).isSome)
    (hn : (dictGet vm (litS "node")).isSome)
    (ht : (dictGet vm (litS "type")).isSome)
    (hcond : cond (postState X cond vm) = true) :
    (setOfList ((parse_tags (dictGetD (postState X cond vm) (litS "tags")
        (.str []))).map pyLower)).contains (pyLower X) = true ∧
      setEq
        (setOfList ((parse_tags (dictGetD (postState X cond vm) (litS "tags")
          (.str []))).map pyLower))
        (setOfList (parse_tags (dictGetD (postState X cond vm) (litS "tags")
          (.str [])))) = true := by
  by_cases hc : cond vm = true
  case neg =>
    have hps : postState X cond vm = vm := by
      unfold postState
      rw [if_neg hc]
    rw [hps] at hcond
    exact absurd hcond hc
  case pos =>
  obtain ⟨v, hv2⟩ := Option.isSome_iff_exists.mp hv
  obtain ⟨nd, hn2⟩ := Option.isSome_iff_exists.mp hn
  obtain ⟨tp, ht2⟩ := Option.isSome_iff_exists.mp ht
  cases hcs : callSpec X vm with
  | none =>
    have hps : postState X cond vm = vm := by
      unfold postState
      rw [if_pos hc, hcs]
    rw [hps]
    have hpt : postTagsSpec X vm = Option.none := by
      unfold callSpec at hcs
      rw [hv2, hn2, ht2] at hcs
      cases hp : postTagsSpec X vm with
      | none => rfl
      | some wl => rw [hp] at hcs; simp at hcs
    unfold postTagsSpec at hpt
    dsimp only at hpt
    by_cases hcont : (setOfList ((parse_tags (dictGetD vm (litS "tags")
        (.str []))).map pyLower)).contains (pyLower X) = true
    · rw [if_pos hcont] at hpt
      split at hpt
      next hq => exact ⟨hcont, hq⟩
      next => simp at hpt
    · rw [if_neg hcont] at hpt
      split at hpt
      next hq =>
        exfalso
        have hx : pyLower X ∈ setOfList (parse_tags (dictGetD vm (litS "tags") (.str []))) :=
          ((setEq_iff _ _).mp hq).1 (pyLower X)
            (List.mem_append.mpr (Or.inr (List.mem_singleton_self _)))
        have hx2 : pyLower X ∈ parse_tags (dictGetD vm (litS "tags") (.str [])) :=
          (mem_setOfList _ _).mp hx
        have hx3 : pyLower X ∈
            (parse_tags (dictGetD vm (litS "tags") (.str []))).map pyLower := by
          have hmm := List.mem_map_of_mem pyLower hx2
          rwa [pyLower_pyLower] at hmm
        exact hcont (contains_of_mem _ _ ((mem_setOfList _ _).mpr hx3))
      next => simp at hpt
  | some c =>
    have hps : postState X cond vm = dictSet vm (litS "tags") (.str c.tags) := by
      unfold postState
      rw [if_pos hc, hcs]
    obtain ⟨wl, hpt, hcw⟩ : ∃ wl, postTagsSpec X vm = some wl ∧ c.tags = formatTags wl := by
      unfold callSpec at hcs
      rw [hv2, hn2, ht2] at hcs
      cases hp : postTagsSpec X vm with
      | none => rw [hp] at hcs; simp at hcs
      | some wl =>
        rw [hp] at hcs
        have h2 : ({ node := nd, vmid := v, tags := formatTags wl, vm_type := tp } : Call)
            = c := Option.some.inj hcs
        exact ⟨wl, rfl, by rw [← h2]⟩
    have hwl : wl =
        (if (setOfList ((parse_tags (dictGetD vm (litS "tags")
            (.str []))).map pyLower)).contains (pyLower X) = true then
          setOfList ((parse_tags (dictGetD vm (litS "tags") (.str []))).map pyLower)
        else
          setOfList ((parse_tags (dictGetD vm (litS "tags") (.str []))).map pyLower)
            ++ [pyLower X]) := by
      unfold postTagsSpec at hpt
      dsimp only at hpt
      by_cases hcont : (setOfList ((parse_tags (dictGetD vm (litS "tags")
          (.str []))).map pyLower)).contains (pyLower X) = true
      · rw [if_pos hcont] at hpt ⊢
        split at hpt
        next => simp at hpt
        next => exact (Option.some.inj hpt).symm
      · rw [if_neg hcont] at hpt ⊢
        split at hpt
        next => simp at hpt
        next => exact (Option.some.inj hpt).symm
    have hmem : ∀ y ∈ wl,
        y ∈ setOfList ((parse_tags (dictGetD vm (litS "tags") (.str []))).map pyLower) ∨
          y = pyLower X := by
      intro y hy
      rw [hwl] at hy
      by_cases hcont : (setOfList ((parse_tags (dictGetD vm (litS "tags")
          (.str []))).map pyLower)).contains (pyLower X) = true
      · rw [if_pos hcont] at hy
        exact Or.inl hy
      · rw [if_neg hcont] at hy
        rcases List.mem_append.mp hy with hy | hy
        · exact Or.inl hy
        · exact Or.inr (List.mem_singleton.mp hy)
    have hxin : pyLower X ∈ wl := by
      rw [hwl]
      by_cases hcont : (setOfList ((parse_tags (dictGetD vm (litS "tags")
          (.str []))).map pyLower)).contains (pyLower X) = true
      · rw [if_pos hcont]
        exact mem_of_contains _ _ hcont
      · rw [if_neg hcont]
        exact List.mem_append.mpr (Or.inr (List.mem_singleton_self _))
    have hclean : ∀ y ∈ wl, y ≠ [] ∧ pyStrip y = y ∧ ';' ∉ y := by
      intro y hy
      rcases hmem y hy with hy2 | rfl
      · obtain ⟨z, hz, rfl⟩ := List.mem_map.mp ((mem_setOfList _ _).mp hy2)
        exact clean_pyLower z (parse_tags_spec _ z hz)
      · exact hXl
    have hfix : ∀ y ∈ wl, pyLower y = y := by
      intro y hy
      rcases hmem y hy with hy2 | rfl
      · obtain ⟨z, hz, rfl⟩ := List.mem_map.mp ((mem_setOfList _ _).mp hy2)
        exact pyLower_pyLower z
      · exact pyLower_pyLower X
    rw [hps]
    have hgd : dictGetD (dictSet vm (litS "tags") (.str c.tags)) (litS "tags") (.str [])
        = .str c.tags := by
      unfold dictGetD
      rw [dictGet_dictSet_self]
      rfl
    rw [hgd, hcw]
    have hparse : parse_tags (Value.str (formatTags wl)) = wl :=
      parseTagsStr_formatTags_clean wl hclean
    rw [hparse]
    have hmapfix : wl.map pyLower = wl := by
      conv_rhs => rw [← List.map_id wl]
      exact List.map_congr_left hfix
    rw [hmapfix]
    exact ⟨contains_of_mem _ _ ((mem_setOfList _ _).mpr hxin), setEq_refl _⟩

/-! Whole-body characterizations. -/

theorem nodup_vmidOf (vms : List PyDict)
    (hk : ∀ vm ∈ vms, (dictGet vm (litS "vmid")).isSome)
    (hnodup : (vms.map (fun vm => dictGet vm (litS "vmid"))).Nodup) :
    (vms.map vmidOf).Nodup := by
  have hmm : vms.map vmidOf =
      (vms.map (fun vm => dictGet vm (litS "vmid"))).map (fun o => o.getD Value.none) := by
    rw [List.map_map]
    rfl
  rw [hmm]
  refine List.Nodup.map_on ?_ hnodup
  intro x hx y hy hxy
  obtain ⟨a, ha, rfl⟩ := List.mem_map.mp hx
  obtain ⟨b, hb, rfl⟩ := List.mem_map.mp hy
  obtain ⟨va, hva⟩ := Option.isSome_iff_exists.mp (hk a ha)
  obtain ⟨vb, hvb⟩ := Option.isSome_iff_exists.mp (hk b hb)
  rw [hva, hvb] at hxy ⊢
  have hsome : va = vb := hxy
  rw [hsome]

theorem dictGet_inj_of_nodup (vms : List PyDict)
    (hnodup : (vms.map (fun vm => dictGet vm (litS "vmid"))).Nodup) :
    ∀ a ∈ vms, ∀ b ∈ vms, dictGet a (litS "vmid") = dictGet b (litS "vmid") → a = b := by
  intro a ha b hb h
  exact List.inj_on_of_nodup_map hnodup ha hb h

theorem evaluate_rule_body_addX_calls (X : Str) (rule : ConditionalRule) (vs : List PyDict)
    (hact : rule.actions =
      { add_tags := [X], remove_tags := [], else_add_tags := [], else_remove_tags := [] })
    (hk : ∀ vm ∈ vs, (dictGet vm (litS "vmid")).isSome ∧ (dictGet vm (litS "node")).isSome ∧
      (dictGet vm (litS "type")).isSome) :
    (evaluate_rule_body rule vs false envOK).2.1 =
      (vs.filter (fun vm => evaluate_conditions rule.conditions vm)).filterMap (callSpec X) ∧
    (evaluate_rule_body rule vs false envOK).2.2 = Option.none := by
  have hkm : ∀ vm ∈ vs.filter (fun vm => evaluate_conditions rule.conditions vm),
      (dictGet vm (litS "vmid")).isSome :=
    fun vm hvm => (hk vm (List.mem_filter.mp hvm).1).1
  have hv := vmidListOf_eq (vs.filter (fun vm => evaluate_conditions rule.conditions vm)) hkm
  unfold evaluate_rule_body
  simp only [hv, hact]
  cases hm : (vs.filter (fun vm => evaluate_conditions rule.conditions vm)).isEmpty with
  | true =>
    have hme : vs.filter (fun vm => evaluate_conditions rule.conditions vm) = [] :=
      List.isEmpty_iff.mp hm
    simp [hme]
  | false =>
    simp only [hm, Bool.false_eq_true, reduceIte]
    simp only [actionsPhase, Bool.false_eq_true, reduceIte, List.isEmpty_nil, Bool.not_true,
      Bool.or_self, Bool.and_false]
    rw [(applyActionsLoop_addX_calls X
      (List.filter (fun vm => evaluate_conditions rule.conditions vm) vs) _
      (fun vm hvm => hk vm (List.mem_filter.mp hvm).1)).2]
    dsimp only
    rw [(applyActionsLoop_addX_calls X
      (List.filter (fun vm => evaluate_conditions rule.conditions vm) vs) _
      (fun vm hvm => hk vm (List.mem_filter.mp hvm).1)).1]
    simp

theorem evaluate_rule_addX_calls (X : Str) (rule : ConditionalRule) (vs : List PyDict)
    (hact : rule.actions =
      { add_tags := [X], remove_tags := [], else_add_tags := [], else_remove_tags := [] })
    (hk : ∀ vm ∈ vs, (dictGet vm (litS "vmid")).isSome ∧ (dictGet vm (litS "node")).isSome ∧
      (dictGet vm (litS "type")).isSome) :
    (evaluate_rule rule vs false envOK).2 =
      (vs.filter (fun vm => evaluate_conditions rule.conditions vm)).filterMap (callSpec X) := by
  obtain ⟨h1, h2⟩ := evaluate_rule_body_addX_calls X rule vs hact hk
  unfold evaluate_rule
  rw [h2]
  dsimp only
  exact h1

theorem evaluate_rule_body_addX_present (X : Str) (rule : ConditionalRule) (vs : List PyDict)
    (hact : rule.actions =
      { add_tags := [X], remove_tags := [], else_add_tags := [], else_remove_tags := [] })
    (hk : ∀ vm ∈ vs, (dictGet vm (litS "vmid")).isSome ∧ (dictGet vm (litS "node")).isSome ∧
      (dictGet vm (litS "type")).isSome)
    (hpres : ∀ vm ∈ vs, evaluate_conditions rule.conditions vm = true →
      (setOfList ((parse_tags (dictGetD vm (litS "tags") (.str []))).map pyLower)).contains
        (pyLower X) = true ∧
      setEq (setOfList ((parse_tags (dictGetD vm (litS "tags") (.str []))).map pyLower))
        (setOfList (parse_tags (dictGetD vm (litS "tags") (.str [])))) = true)
    (hnodup : (vs.map (fun vm => dictGet vm (litS "vmid"))).Nodup) :
    evaluate_rule_body rule vs false envOK =
      ({ rule_id := rule.id, rule_name := rule.name, dry_run := false,
         matched_vms := (vs.filter (fun vm => evaluate_conditions rule.conditions vm)).map
           vmidOf,
         tags_already_present := (vs.filter
           (fun vm => evaluate_conditions rule.conditions vm)).map
             (fun vm => (vmidOf vm, [pyLower X])) }, [], Option.none) := by
  have hkm : ∀ vm ∈ vs.filter (fun vm => evaluate_conditions rule.conditions vm),
      (dictGet vm (litS "vmid")).isSome :=
    fun vm hvm => (hk vm (List.mem_filter.mp hvm).1).1
  have hv := vmidListOf_eq (vs.filter (fun vm => evaluate_conditions rule.conditions vm)) hkm
  unfold evaluate_rule_body
  simp only [hv, hact]
  cases hm : (vs.filter (fun vm => evaluate_conditions rule.conditions vm)).isEmpty with
  | true =>
    have hme : vs.filter (fun vm => evaluate_conditions rule.conditions vm) = [] :=
      List.isEmpty_iff.mp hm
    simp [hme]
  | false =>
    simp only [hm, Bool.false_eq_true, reduceIte]
    simp only [actionsPhase, Bool.false_eq_true, reduceIte, List.isEmpty_nil, Bool.not_true,
      Bool.or_self, Bool.and_false]
    have hloop := applyActionsLoop_addX_present X
      (List.filter (fun vm => evaluate_conditions rule.conditions vm) vs)
      { rule_id := rule.id, rule_name := rule.name, success := true, timestamp := 0,
        matched_vms := List.map vmidOf
          (List.filter (fun vm => evaluate_conditions rule.conditions vm) vs),
        tags_added := [], tags_removed := [], tags_already_present := [], errors := [],
        execution_time := 0, dry_run := false }
      (fun vm hvm => by
        obtain ⟨h1, h2, h3⟩ := hk vm (List.mem_filter.mp hvm).1
        obtain ⟨h4, h5⟩ := hpres vm (List.mem_filter.mp hvm).1 (List.mem_filter.mp hvm).2
        exact ⟨h1, h2, h3, h4, h5⟩)
      (fun vm hvm p hp => absurd hp (List.not_mem_nil p))
      ((nodup_vmidOf vs (fun vm hvm => (hk vm hvm).1) hnodup).sublist
        (List.Sublist.map vmidOf (List.filter_sublist vs)))
    rw [hloop]
    dsimp only
    simp

theorem evaluate_rule_addX_present (X : Str) (rule : ConditionalRule) (vs : List PyDict)
    (hact : rule.actions =
      { add_tags := [X], remove_tags := [], else_add_tags := [], else_remove_tags := [] })
    (hk : ∀ vm ∈ vs, (dictGet vm (litS "vmid")).isSome ∧ (dictGet vm (litS "node")).isSome ∧
      (dictGet vm (litS "type")).isSome)
    (hpres : ∀ vm ∈ vs, evaluate_conditions rule.conditions vm = true →
      (setOfList ((parse_tags (dictGetD vm (litS "tags") (.str []))).map pyLower)).contains
        (pyLower X) = true ∧
      setEq (setOfList ((parse_tags (dictGetD vm (litS "tags") (.str []))).map pyLower))
        (setOfList (parse_tags (dictGetD vm (litS "tags") (.str [])))) = true)
    (hnodup : (vs.map (fun vm => dictGet vm (litS "vmid"))).Nodup) :
    evaluate_rule rule vs false envOK =
      ({ rule_id := rule.id, rule_name := rule.name, dry_run := false,
         matched_vms := (vs.filter (fun vm => evaluate_conditions rule.conditions vm)).map
           vmidOf,
         tags_already_present := (vs.filter
           (fun vm => evaluate_conditions rule.conditions vm)).map
             (fun vm => (vmidOf vm, [pyLower X])) }, []) := by
  have hb := evaluate_rule_body_addX_present X rule vs hact hk hpres hnodup
  unfold evaluate_rule
  rw [hb]

/-- C3 (amended): for a rule whose only action is THEN `add_tags = [X]` with
`X` non-empty, stripped and semicolon-free, on a resource batch in which
every record carries its `vmid`/`node`/`type` keys with pairwise distinct
`vmid`s, re-evaluating live on the resource states produced by a prior live
application reports `X` (lowercased) under `tags_already_present` for each
matched resource and reports nothing under `tags_added`. -/
theorem repeated_application_idempotent (X : Str) (rule : ConditionalRule) (vms : List PyDict)
    (hact : rule.actions =
      { add_tags := [X], remove_tags := [], else_add_tags := [], else_remove_tags := [] })
    (hX : X ≠ [] ∧ pyStrip X = X ∧ ';' ∉ X)
    (hk : ∀ vm ∈ vms, (dictGet vm (litS "vmid")).isSome ∧ (dictGet vm (litS "node")).isSome ∧
      (dictGet vm (litS "type")).isSome)
    (hnodup : (vms.map (fun vm => dictGet vm (litS "vmid"))).Nodup) :
    (evaluate_rule rule (applyCalls envOK (evaluate_rule rule vms false envOK).2 vms)
        false envOK).1.tags_added = [] ∧
    (evaluate_rule rule (applyCalls envOK (evaluate_rule rule vms false envOK).2 vms)
        false envOK).1.tags_already_present =
      (evaluate_rule rule (applyCalls envOK (evaluate_rule rule vms false envOK).2 vms)
        false envOK).1.matched_vms.map (fun i => (i, [pyLower X])) := by
  have hXl := clean_pyLower X hX
  have hcalls := evaluate_rule_addX_calls X rule vms hact hk
  rw [hcalls]
  rw [applyCalls_eq_postState X (fun vm => evaluate_conditions rule.conditions vm) vms
    (fun vm hvm => (hk vm hvm).1) (dictGet_inj_of_nodup vms hnodup)]
  have hk2 : ∀ vm2 ∈ vms.map (postState X (fun vm => evaluate_conditions rule.conditions vm)),
      (dictGet vm2 (litS "vmid")).isSome ∧ (dictGet vm2 (litS "node")).isSome ∧
        (dictGet vm2 (litS "type")).isSome := by
    intro vm2 hm2
    obtain ⟨vm, hvm, rfl⟩ := List.mem_map.mp hm2
    obtain ⟨h1, h2, h3⟩ := hk vm hvm
    rw [postState_keys X _ vm (litS "vmid") (by decide),
      postState_keys X _ vm (litS "node") (by decide),
      postState_keys X _ vm (litS "type") (by decide)]
    exact ⟨h1, h2, h3⟩
  have hg2 : ∀ vm2 ∈ vms.map (postState X (fun vm => evaluate_conditions rule.conditions vm)),
      evaluate_conditions rule.conditions vm2 = true →
        (setOfList ((parse_tags (dictGetD vm2 (litS "tags") (.str []))).map pyLower)).contains
          (pyLower X) = true ∧
        setEq (setOfList ((parse_tags (dictGetD vm2 (litS "tags") (.str []))).map pyLower))
          (setOfList (parse_tags (dictGetD vm2 (litS "tags") (.str [])))) = true := by
    intro vm2 hm2 hcond
    obtain ⟨vm, hvm, rfl⟩ := List.mem_map.mp hm2
    obtain ⟨h1, h2, h3⟩ := hk vm hvm
    exact postState_present X _ vm hXl h1 h2 h3 hcond
  have hnodup2 : ((vms.map (postState X
      (fun vm => evaluate_conditions rule.conditions vm))).map
        (fun vm => dictGet vm (litS "vmid"))).Nodup := by
    have hsame : (vms.map (postState X
        (fun vm => evaluate_conditions rule.conditions vm))).map
          (fun vm => dictGet vm (litS "vmid"))
        = vms.map (fun vm => dictGet vm (litS "vmid")) := by
      rw [List.map_map]
      exact List.map_congr_left (fun a _ => postState_keys X _ a (litS "vmid") (by decide))
    rw [hsame]
    exact hnodup
  rw [evaluate_rule_addX_present X rule
    (vms.map (postState X (fun vm => evaluate_conditions rule.conditions vm)))
    hact hk2 hg2 hnodup2]
  refine ⟨rfl, ?_⟩
  rw [List.map_map]
  rfl

/-- C3 (counterexample to the claim as stated): a rule whose only action is
THEN `add_tags = [X]` with the raw tag `X = "a;b"`.  The first live run sends
the unparsed string `"a;b"` in its call; re-listing the resources and
re-evaluating reports `X` under `tags_added` again and nothing under
`tags_already_present`, because the applied tag string parses back to the two
tags `"a"` and `"b"`, never to `X` itself. -/
theorem repeated_application_not_idempotent :
    ∃ (X : Str) (rule : ConditionalRule) (vms : List PyDict),
      rule.actions = ⟨[X], [], [], []⟩ ∧
      (evaluate_rule rule vms false envOK).2 =
        [⟨.str (litS "n1"), .int 1, litS "a;b", .str (litS "qemu")⟩] ∧
      (evaluate_rule rule (applyCalls envOK (evaluate_rule rule vms false envOK).2 vms)
          false envOK).1.tags_already_present = [] ∧
      (evaluate_rule rule (applyCalls envOK (evaluate_rule rule vms false envOK).2 vms)
          false envOK).1.tags_added = [(.int 1, [litS "a;b"])] := by
  refine ⟨litS "a;b",
    { id := litS "r3", name := litS "R3",
      conditions := ⟨.AND, [⟨litS "vmid", litS "equals", .int 1⟩]⟩,
      actions := { add_tags := [litS "a;b"] } },
    [[(litS "vmid", Value.int 1), (litS "node", Value.str (litS "n1")),
      (litS "type", Value.str (litS "qemu")), (litS "tags", Value.str (litS ""))]],
    rfl, ?_, ?_, ?_⟩ <;> decide

theorem repeated_application_idempotent_witness :
    ((litS "web" : Str) ≠ [] ∧ pyStrip (litS "web") = litS "web" ∧ ';' ∉ litS "web") ∧
    ((evaluate_rule
        { id := litS "r1", name := litS "R1",
          conditions := ⟨.AND, [⟨litS "vmid", litS "equals", Value.int 1⟩]⟩,
          actions := { add_tags := [litS "web"] } }
        (applyCalls envOK
          (evaluate_rule
            { id := litS "r1", name := litS "R1",
              conditions := ⟨.AND, [⟨litS "vmid", litS "equals", Value.int 1⟩]⟩,
              actions := { add_tags := [litS "web"] } }
            [[(litS "vmid", Value.int 1), (litS "node", Value.str (litS "n1")),
              (litS "type", Value.str (litS "qemu")), (litS "tags", Value.str (litS "Test"))]]
            false envOK).2
          [[(litS "vmid", Value.int 1), (litS "node", Value.str (litS "n1")),
            (litS "type", Value.str (litS "qemu")), (litS "tags", Value.str (litS "Test"))]])
        false envOK).1.tags_added = [] ∧
      (evaluate_rule
        { id := litS "r1", name := litS "R1",
          conditions := ⟨.AND, [⟨litS "vmid", litS "equals", Value.int 1⟩]⟩,
          actions := { add_tags := [litS "web"] } }
        (applyCalls envOK
          (evaluate_rule
            { id := litS "r1", name := litS "R1",
              conditions := ⟨.AND, [⟨litS "vmid", litS "equals", Value.int 1⟩]⟩,
              actions := { add_tags := [litS "web"] } }
            [[(litS "vmid", Value.int 1), (litS "node", Value.str (litS "n1")),
              (litS "type", Value.str (litS "qemu")), (litS "tags", Value.str (litS "Test"))]]
            false envOK).2
          [[(litS "vmid", Value.int 1), (litS "node", Value.str (litS "n1")),
            (litS "type", Value.str (litS "qemu")), (litS "tags", Value.str (litS "Test"))]])
        false envOK).1.tags_already_present =
      (evaluate_rule
        { id := litS "r1", name := litS "R1",
          conditions := ⟨.AND, [⟨litS "vmid", litS "equals", Value.int 1⟩]⟩,
          actions := { add_tags := [litS "web"] } }
        (applyCalls envOK
          (evaluate_rule
            { id := litS "r1", name := litS "R1",
              conditions := ⟨.AND, [⟨litS "vmid", litS "equals", Value.int 1⟩]⟩,
              actions := { add_tags := [litS "web"] } }
            [[(litS "vmid", Value.int 1), (litS "node", Value.str (litS "n1")),
              (litS "type", Value.str (litS "qemu")), (litS "tags", Value.str (litS "Test"))]]
            false envOK).2
          [[(litS "vmid", Value.int 1), (litS "node", Value.str (litS "n1")),
            (litS "type", Value.str (litS "qemu")), (litS "tags", Value.str (litS "Test"))]])
        false envOK).1.matched_vms.map (fun i => (i, [pyLower (litS "web")]))) :=
  ⟨by decide,
    repeated_application_idempotent (litS "web")
      { id := litS "r1", name := litS "R1",
        conditions := ⟨.AND, [⟨litS "vmid", litS "equals", Value.int 1⟩]⟩,
        actions := { add_tags := [litS "web"] } }
      [[(litS "vmid", Value.int 1), (litS "node", Value.str (litS "n1")),
        (litS "type", Value.str (litS "qemu")), (litS "tags", Value.str (litS "Test"))]]
      rfl (by decide) (by decide) (by decide)⟩

end Proxtagger
